import Mathlib

/-!
# Verification of the record / replay determinism core

Shallow embedding of the determinism-critical parts of the repository:

* the seed schedule used by `src/replay/record.py` and `src/replay/replay.py`;
* the recorder main loop (`record.py`, `main`) and the replayer main loop
  (`replay.py`, `main`), with the environment modelled as a deterministic
  function of the seed of its last reset and of the actions taken since;
* the replay verdict computation (`replay.py`, lines 61-78);
* the action policies (`src/replay/policies.py`);
* the observation fingerprint encoding (`src/envs/base.py`, `obs_hash`).

Rewards are modelled as rationals: both loops accumulate rewards by the
same sequence of additions, so the choice of carrier does not affect any
statement proved here, and rationals make every comparison decidable.
Python int seeds are modelled as `Int`, actions as `Nat`.
-/

namespace GpuRl

/-- Seed used by the recorder for the reset issued after an episode ends at
0-based global step index `step` (`record.py`, line 190:
`new_seed = args.seed + step + 1`). -/
def recordReseed (seed : Int) (step : Nat) : Int :=
  seed + (step : Int) + 1

/-- Seed used by the replayer for the reset issued after a replayed step
signals done at 0-based index `step` (`replay.py`, line 55:
`new_seed = seed + step + 1`). -/
def replayReseed (seed : Int) (step : Nat) : Int :=
  seed + (step : Int) + 1

/-- Seed passed to the very first environment reset by the recorder
(`record.py`, line 121: `env.reset(seed=args.seed)`). -/
def recordInitialSeed (seed : Int) : Int :=
  seed

/-- Seed passed to the very first environment reset by the replayer
(`replay.py`, line 39: `env.reset(seed=seed)`). -/
def replayInitialSeed (seed : Int) : Int :=
  seed

/-- Result of one environment step (`envs/base.py`, `StepResult`; the
`info` dictionary is dropped: neither loop reads it). -/
structure StepOut (Obs : Type) where
  obs : Obs
  reward : Rat
  terminated : Bool
  truncated : Bool

/-- Deterministic model of the environment collaborator: the observation
returned by `reset(seed)`, and the step result as a function of the seed
of the current episode's reset and of the whole list of actions taken
since that reset (the claim's model of a deterministic simulator). -/
structure EnvModel (Obs : Type) where
  resetObs : Int → Obs
  stepOut : Int → List Nat → StepOut Obs

/-- State of the recorder main loop (`record.py`, `main`), plus three
instrumentation traces: the `done` flag passed to each `policy.act` call,
the mid-run reset events as pairs of (global step index at done, seed
passed to `env.reset`), and the seed of the initial reset. -/
structure RecorderState (Obs σ : Type) where
  polS : σ
  obs : Obs
  epSeed : Int
  histActs : List Nat
  actions : List Nat
  totalReward : Rat
  episodeReturn : Rat
  lastReward : Rat
  lastDone : Bool
  episodeId : Nat
  episodeStep : Nat
  initialResetSeed : Int
  actCallDones : List Bool
  midResets : List (Nat × Int)

/-- Recorder state just after `env.reset(seed=args.seed)` (`record.py`,
lines 121-150). -/
def recordInit {Obs σ : Type} (E : EnvModel Obs) (S : Int) (p0 : σ) :
    RecorderState Obs σ :=
  { polS := p0
    obs := E.resetObs (recordInitialSeed S)
    epSeed := recordInitialSeed S
    histActs := []
    actions := []
    totalReward := 0
    episodeReturn := 0
    lastReward := 0
    lastDone := false
    episodeId := 0
    episodeStep := 0
    initialResetSeed := recordInitialSeed S
    actCallDones := []
    midResets := [] }

/-- One iteration of the recorder loop body (`record.py`, lines 152-197).
The returned boolean is false exactly when the loop `break`s (done while
`--single-episode` is set). Telemetry writing is not modelled beyond the
fields it reads. -/
def recordIter {Obs σ : Type} (E : EnvModel Obs)
    (actFn : σ → Nat → Obs → Rat → Bool → σ × Nat)
    (S : Int) (singleEp : Bool) (step : Nat) (st : RecorderState Obs σ) :
    RecorderState Obs σ × Bool :=
  let ar := actFn st.polS step st.obs st.lastReward st.lastDone
  let hist2 := st.histActs ++ [ar.2]
  let sr := E.stepOut st.epSeed hist2
  let done := sr.terminated || sr.truncated
  let st1 : RecorderState Obs σ :=
    { st with
      polS := ar.1
      obs := sr.obs
      histActs := hist2
      actions := st.actions ++ [ar.2]
      totalReward := st.totalReward + sr.reward
      episodeReturn := st.episodeReturn + sr.reward
      lastReward := sr.reward
      lastDone := done
      episodeStep := st.episodeStep + 1
      actCallDones := st.actCallDones ++ [st.lastDone] }
  if done then
    if singleEp then
      (st1, false)
    else
      let newSeed := recordReseed S step
      ({ st1 with
          obs := E.resetObs newSeed
          epSeed := newSeed
          histActs := []
          episodeId := st1.episodeId + 1
          episodeStep := 0
          episodeReturn := 0
          lastReward := 0
          lastDone := false
          midResets := st1.midResets ++ [(step, newSeed)] }, true)
  else
    (st1, true)

/-- The recorder loop `for step in range(args.steps)` (`record.py`,
line 152), run from `step` with `rem` budgeted iterations left. -/
def recordSteps {Obs σ : Type} (E : EnvModel Obs)
    (actFn : σ → Nat → Obs → Rat → Bool → σ × Nat)
    (S : Int) (singleEp : Bool) :
    Nat → Nat → RecorderState Obs σ → RecorderState Obs σ
  | 0, _, st => st
  | Nat.succ rem, step, st =>
    let r := recordIter E actFn S singleEp step st
    if r.2 then recordSteps E actFn S singleEp rem (step + 1) r.1 else r.1

/-- A whole recording (`record.py`, `main`): initial reset, then the step
loop. -/
def recordRun {Obs σ : Type} (E : EnvModel Obs)
    (actFn : σ → Nat → Obs → Rat → Bool → σ × Nat)
    (S : Int) (steps : Nat) (singleEp : Bool) (p0 : σ) :
    RecorderState Obs σ :=
  recordSteps E actFn S singleEp steps 0 (recordInit E S p0)

/-- The fields of the persisted `RunArtifact` that replay consumes
(`record.py`, lines 201-222). -/
structure RunArtifactM where
  actions : List Nat
  totalReward : Rat
  finalObsHash : String
  seed : Int
  singleEpisode : Bool

/-- Artifact produced at the end of a recording: `final_hash =
obs_hash(obs)` on whatever observation is current when the loop exits
(`record.py`, line 199). -/
def recordArtifact {Obs σ : Type} (hashFn : Obs → String) (E : EnvModel Obs)
    (actFn : σ → Nat → Obs → Rat → Bool → σ × Nat)
    (S : Int) (steps : Nat) (singleEp : Bool) (p0 : σ) : RunArtifactM :=
  let st := recordRun E actFn S steps singleEp p0
  { actions := st.actions
    totalReward := st.totalReward
    finalObsHash := hashFn st.obs
    seed := S
    singleEpisode := singleEp }

/-- State of the replayer main loop (`replay.py`, `main`), with the same
reset instrumentation as the recorder. -/
structure ReplayerState (Obs : Type) where
  obs : Obs
  epSeed : Int
  histActs : List Nat
  totalReward : Rat
  lastHash : String
  initialResetSeed : Int
  midResets : List (Nat × Int)

/-- Replayer state just after `env.reset(seed=seed)` and
`last_hash = obs_hash(obs)` (`replay.py`, lines 39-42). -/
def replayInit {Obs : Type} (hashFn : Obs → String) (E : EnvModel Obs)
    (S : Int) : ReplayerState Obs :=
  { obs := E.resetObs (replayInitialSeed S)
    epSeed := replayInitialSeed S
    histActs := []
    totalReward := 0
    lastHash := hashFn (E.resetObs (replayInitialSeed S))
    initialResetSeed := replayInitialSeed S
    midResets := [] }

/-- One iteration of the replayer loop body (`replay.py`, lines 47-57).
The reseed-on-done branch is unconditional: the artifact's
`single_episode` flag is never consulted. -/
def replayIter {Obs : Type} (hashFn : Obs → String) (E : EnvModel Obs)
    (S : Int) (step : Nat) (a : Nat) (st : ReplayerState Obs) :
    ReplayerState Obs :=
  let hist2 := st.histActs ++ [a]
  let sr := E.stepOut st.epSeed hist2
  let done := sr.terminated || sr.truncated
  let st1 : ReplayerState Obs :=
    { st with
      obs := sr.obs
      histActs := hist2
      totalReward := st.totalReward + sr.reward
      lastHash := hashFn sr.obs }
  if done then
    let newSeed := replayReseed S step
    { st1 with
      obs := E.resetObs newSeed
      epSeed := newSeed
      histActs := []
      lastHash := hashFn (E.resetObs newSeed)
      midResets := st1.midResets ++ [(step, newSeed)] }
  else
    st1

/-- The replayer loop `for step, action in enumerate(actions)`
(`replay.py`, line 47). -/
def replaySteps {Obs : Type} (hashFn : Obs → String) (E : EnvModel Obs)
    (S : Int) : Nat → List Nat → ReplayerState Obs → ReplayerState Obs
  | _, [], st => st
  | step, a :: rest, st =>
    replaySteps hashFn E S (step + 1) rest (replayIter hashFn E S step a st)

/-- A whole replay drive (`replay.py`, `main`, up to `env.close()`). -/
def replayRun {Obs : Type} (hashFn : Obs → String) (E : EnvModel Obs)
    (S : Int) (acts : List Nat) : ReplayerState Obs :=
  replaySteps hashFn E S 0 acts (replayInit hashFn E S)

/-- Everything the verdict block of `replay.py` (lines 61-78) computes and
prints, plus the process exit code it produces. -/
structure ReplayReport where
  expectedTotalReward : Rat
  actualTotalReward : Rat
  expectedFinalHash : String
  actualFinalHash : String
  okReward : Bool
  okHash : Bool
  exitCode : Nat

/-- The reward tolerance `1e-6` of `replay.py`, line 61. -/
def rewardTol : Rat :=
  1 / 1000000

/-- The verdict computation of `replay.py`, lines 61-78: both checks are
computed, all four expected/actual values are printed, then the process
exits 0 on full match and raises `SystemExit(2)` otherwise. -/
def replayVerdict {Obs : Type} (expectedReward : Rat) (expectedHash : String)
    (st : ReplayerState Obs) : ReplayReport :=
  let okR := decide (abs (st.totalReward - expectedReward) < rewardTol)
  let okH := st.lastHash == expectedHash
  { expectedTotalReward := expectedReward
    actualTotalReward := st.totalReward
    expectedFinalHash := expectedHash
    actualFinalHash := st.lastHash
    okReward := okR
    okHash := okH
    exitCode := if okR && okH then 0 else 2 }

/-! ## Action policies (`src/replay/policies.py`)

The numpy generator `np.random.default_rng(seed)` is modelled as a pure
stream: an `RngModel` gives, for each draw index, the value of a
`random()` call and of an `integers(0, n)` call, and an `Rng` pairs a
model with the number of draws already made. `default_rng` itself is
modelled as an arbitrary function from seeds to streams, passed in as a
parameter `mk`, so that equal seeds give equal streams. Both policies
ignore the observation argument of `act`, so it is not modelled. -/

/-- Pure model of a numpy `Generator`'s output stream. -/
structure RngModel where
  floats : Nat → Rat
  ints : Nat → Nat → Nat

/-- A generator: its stream plus the number of draws made so far. -/
structure Rng where
  model : RngModel
  pos : Nat

/-- One `rng.random()` draw. -/
def rngNextFloat (g : Rng) : Rat × Rng :=
  (g.model.floats g.pos, { g with pos := g.pos + 1 })

/-- One `rng.integers(0, n)` draw. -/
def rngNextInt (g : Rng) (n : Nat) : Nat × Rng :=
  (g.model.ints g.pos n, { g with pos := g.pos + 1 })

/-- Well-formedness of a generator stream: `random()` lands in `[0, 1)`
and `integers(0, n)` lands in `[0, n)` whenever `n > 0`, as numpy
guarantees. -/
def RngWF (m : RngModel) : Prop :=
  (∀ k, 0 ≤ m.floats k ∧ m.floats k < 1) ∧
  (∀ k n, 0 < n → m.ints k n < n)

/-- Internal state of `RandomPolicy`: exactly the fields its `reset`
assigns and its `act` reads (`policies.py`, lines 16-25). -/
structure RandomPolicyState where
  rng : Rng
  n : Nat

/-- `RandomPolicy.reset` (`policies.py`, lines 20-22): assigns a fresh
generator and the action count; the prior state `p` and the
`action_meanings` argument are not read. -/
def randomReset (_p : RandomPolicyState) (mk : Int → RngModel) (seed : Int)
    (_meanings : List String) (n : Nat) : RandomPolicyState :=
  { rng := { model := mk seed, pos := 0 }, n := n }

/-- `RandomPolicy.act` (`policies.py`, lines 24-25): one uniform draw in
`[0, n)`; the step, reward and done arguments are not read. -/
def randomAct (p : RandomPolicyState) (_step : Nat) (_reward : Rat)
    (_done : Bool) : RandomPolicyState × Nat :=
  let d := rngNextInt p.rng p.n
  ({ p with rng := d.2 }, d.1)

/-- The four directional action names searched for by
`StickyDirectionalPolicy.reset` (`policies.py`, line 52). -/
def dirNames : List String :=
  ["UP", "RIGHT", "DOWN", "LEFT"]

/-- Python `list.index`: position of the first occurrence. The source
only calls it on elements known to be present; on an absent element the
source raises and this model returns the list's length. -/
def firstIndex (x : String) : List String → Nat
  | [] => 0
  | y :: ys => if y = x then 0 else firstIndex x ys + 1

/-- Internal state of `StickyDirectionalPolicy`: the dataclass parameters
`stuck_window` and `jitter_prob` (`policies.py`, lines 41-43, preserved
across `reset`) plus every field `reset` assigns. -/
structure StickyPolicyState where
  stuckWindow : Nat
  jitterProb : Rat
  rng : Rng
  n : Nat
  meanings : List String
  dirActions : List Nat
  curIdx : Nat
  curAction : Nat
  sinceProgress : Nat

/-- The `dir_actions` list built by `StickyDirectionalPolicy.reset`
(`policies.py`, lines 52-60): `meanings.index(d)` for each of `dirNames`
present in the vocabulary, in that order, falling back to the first
`min 4 n` actions when none is recognized. -/
def stickyDirActions (meanings : List String) (n : Nat) : List Nat :=
  let found := (dirNames.filter (fun d => decide (d ∈ meanings))).map
    (fun d => firstIndex d meanings)
  if found.isEmpty then List.range (min 4 n) else found

/-- `StickyDirectionalPolicy.reset` (`policies.py`, lines 45-65):
fresh generator, directional action indices from the vocabulary.
The source reads `self.dir_actions[0]` here, which raises when that list
is empty (`n = 0` with no recognized direction); the model totalizes
that lookup with `List.getD`, and every theorem below assumes `0 < n`. -/
def stickyReset (p : StickyPolicyState) (mk : Int → RngModel) (seed : Int)
    (meanings : List String) (n : Nat) : StickyPolicyState :=
  let dirActions := stickyDirActions meanings n
  { p with
    rng := { model := mk seed, pos := 0 }
    n := n
    meanings := meanings
    dirActions := dirActions
    curIdx := 0
    curAction := dirActions.getD 0 0
    sinceProgress := 0 }

/-- `StickyDirectionalPolicy.act` (`policies.py`, lines 67-91), with the
same `List.getD` totalization of `dir_actions[i]` (always guarded by a
nonempty `dir_actions` in the theorems below). -/
def stickyAct (p : StickyPolicyState) (_step : Nat) (reward : Rat)
    (done : Bool) : StickyPolicyState × Nat :=
  if done then
    ({ p with sinceProgress := 0 }, p.curAction)
  else
    let p1 :=
      if reward > 0 then { p with sinceProgress := 0 }
      else { p with sinceProgress := p.sinceProgress + 1 }
    let d := rngNextFloat p1.rng
    let p2 := { p1 with rng := d.2 }
    if d.1 < p2.jitterProb then
      let j := rngNextInt p2.rng p2.dirActions.length
      let p3 := { p2 with
        rng := j.2
        curIdx := j.1
        curAction := p2.dirActions.getD j.1 0
        sinceProgress := 0 }
      (p3, p3.curAction)
    else if p2.stuckWindow ≤ p2.sinceProgress then
      let i := (p2.curIdx + 1) % p2.dirActions.length
      let p3 := { p2 with
        curIdx := i
        curAction := p2.dirActions.getD i 0
        sinceProgress := 0 }
      (p3, p3.curAction)
    else
      (p2, p2.curAction)

/-- Actions produced by a sequence of `RandomPolicy.act` calls, one per
`(last_reward, last_done)` input, with the step counter threaded. -/
def randomRunActions : RandomPolicyState → Nat → List (Rat × Bool) → List Nat
  | _, _, [] => []
  | p, k, i :: rest =>
    let o := randomAct p k i.1 i.2
    o.2 :: randomRunActions o.1 (k + 1) rest

/-- Actions produced by a sequence of `StickyDirectionalPolicy.act`
calls, one per `(last_reward, last_done)` input. -/
def stickyRunActions : StickyPolicyState → Nat → List (Rat × Bool) → List Nat
  | _, _, [] => []
  | p, k, i :: rest =>
    let o := stickyAct p k i.1 i.2
    o.2 :: stickyRunActions o.1 (k + 1) rest

/-! ### The spec's precedence order for `StickyDirectionalPolicy.act`

A second definition of the sticky transition, structured literally as the
six numbered rules of spec section 4.3, to be compared with `stickyAct`:
rule 1 (episode boundary) first, rules 2-3 (progress bookkeeping), rule 4
(jitter, returning immediately when it fires), rule 5 (stuck rotation),
rule 6 (return the current direction). -/

/-- Rules 2-3 of the spec: positive reward resets the progress counter,
anything else increments it. -/
def stickySpecProgress (p : StickyPolicyState) (reward : Rat) :
    StickyPolicyState :=
  if reward > 0 then { p with sinceProgress := 0 }
  else { p with sinceProgress := p.sinceProgress + 1 }

/-- Rule 4 of the spec: draw from the generator; with probability
`jitter_prob` pick a fresh uniformly random direction, reset the counter
and return it immediately (`Sum.inl`); otherwise hand the state (with the
draw consumed) to the next rule (`Sum.inr`). -/
def stickySpecJitter (p : StickyPolicyState) :
    Sum (StickyPolicyState × Nat) StickyPolicyState :=
  let d := rngNextFloat p.rng
  let p2 := { p with rng := d.2 }
  if d.1 < p2.jitterProb then
    let j := rngNextInt p2.rng p2.dirActions.length
    let p3 := { p2 with
      rng := j.2
      curIdx := j.1
      curAction := p2.dirActions.getD j.1 0
      sinceProgress := 0 }
    Sum.inl (p3, p3.curAction)
  else
    Sum.inr p2

/-- Rule 5 of the spec: once the counter has reached the threshold,
advance to the next direction in cyclic order and reset the counter. -/
def stickySpecStuck (p : StickyPolicyState) : StickyPolicyState :=
  if p.stuckWindow ≤ p.sinceProgress then
    let i := (p.curIdx + 1) % p.dirActions.length
    { p with
      curIdx := i
      curAction := p.dirActions.getD i 0
      sinceProgress := 0 }
  else
    p

/-- The spec's transition: rule 1, then rules 2-3, then rule 4 with its
early return pre-empting rule 5, then rule 6. -/
def stickyActSpecOrder (p : StickyPolicyState) (_step : Nat) (reward : Rat)
    (done : Bool) : StickyPolicyState × Nat :=
  if done then
    ({ p with sinceProgress := 0 }, p.curAction)
  else
    let p1 := stickySpecProgress p reward
    match stickySpecJitter p1 with
    | Sum.inl out => out
    | Sum.inr p2 =>
      let p3 := stickySpecStuck p2
      (p3, p3.curAction)

/-! ## Resource lifecycle under environment faults

Neither `record.py` nor `replay.py` wraps its loop in `try/finally` or a
context manager: `env.close()` is the plain statement at `record.py` line
224 and `replay.py` line 59, reached only when everything before it
returned normally. To settle the close-exactly-once claim the two mains
are re-embedded over a fallible environment (`none` models the
collaborator raising), instrumented with the number of `env.close()`
calls the run performs: 1 when the close statement is reached, 0 when an
exception propagates past it. -/

/-- Fallible environment model: `none` models `reset`/`step` raising. -/
structure FEnvModel (Obs : Type) where
  resetObs : Int → Option Obs
  stepOut : Int → List Nat → Option (StepOut Obs)

/-- The recorder-loop fields that feed back into the next iteration. -/
structure RecFState (Obs σ : Type) where
  polS : σ
  obs : Obs
  epSeed : Int
  histActs : List Nat
  lastReward : Rat
  lastDone : Bool

/-- One recorder iteration over the fallible environment; `none`
propagates a raise from `env.step` or the mid-run `env.reset`. -/
def recordIterF {Obs σ : Type} (E : FEnvModel Obs)
    (actFn : σ → Nat → Obs → Rat → Bool → σ × Nat)
    (S : Int) (singleEp : Bool) (step : Nat) (st : RecFState Obs σ) :
    Option (RecFState Obs σ × Bool) :=
  let ar := actFn st.polS step st.obs st.lastReward st.lastDone
  let hist2 := st.histActs ++ [ar.2]
  match E.stepOut st.epSeed hist2 with
  | none => none
  | some sr =>
    let done := sr.terminated || sr.truncated
    let st1 : RecFState Obs σ :=
      { st with
        polS := ar.1
        obs := sr.obs
        histActs := hist2
        lastReward := sr.reward
        lastDone := done }
    if done then
      if singleEp then
        some (st1, false)
      else
        match E.resetObs (recordReseed S step) with
        | none => none
        | some o2 =>
          some ({ st1 with
              obs := o2
              epSeed := recordReseed S step
              histActs := []
              lastReward := 0
              lastDone := false }, true)
    else
      some (st1, true)

/-- The recorder loop over the fallible environment. -/
def recordStepsF {Obs σ : Type} (E : FEnvModel Obs)
    (actFn : σ → Nat → Obs → Rat → Bool → σ × Nat)
    (S : Int) (singleEp : Bool) :
    Nat → Nat → RecFState Obs σ → Option (RecFState Obs σ)
  | 0, _, st => some st
  | Nat.succ rem, step, st =>
    match recordIterF E actFn S singleEp step st with
    | none => none
    | some r =>
      if r.2 then recordStepsF E actFn S singleEp rem (step + 1) r.1
      else some r.1

/-- Number of `env.close()` calls a recording performs (`record.py`,
`main`): the single close at line 224 runs only after the initial reset
and the whole loop returned normally. -/
def recordCloses {Obs σ : Type} (E : FEnvModel Obs)
    (actFn : σ → Nat → Obs → Rat → Bool → σ × Nat)
    (S : Int) (steps : Nat) (singleEp : Bool) (p0 : σ) : Nat :=
  match E.resetObs (recordInitialSeed S) with
  | none => 0
  | some o0 =>
    match recordStepsF E actFn S singleEp steps 0
      { polS := p0, obs := o0, epSeed := recordInitialSeed S,
        histActs := [], lastReward := 0, lastDone := false } with
    | none => 0
    | some _ => 1

/-- The replayer-loop fields that feed back into the next iteration. -/
structure RepFState (Obs : Type) where
  obs : Obs
  epSeed : Int
  histActs : List Nat

/-- One replayer iteration over the fallible environment. -/
def replayIterF {Obs : Type} (E : FEnvModel Obs) (S : Int) (step : Nat)
    (a : Nat) (st : RepFState Obs) : Option (RepFState Obs) :=
  let hist2 := st.histActs ++ [a]
  match E.stepOut st.epSeed hist2 with
  | none => none
  | some sr =>
    let done := sr.terminated || sr.truncated
    if done then
      match E.resetObs (replayReseed S step) with
      | none => none
      | some o2 =>
        some { obs := o2, epSeed := replayReseed S step, histActs := [] }
    else
      some { st with obs := sr.obs, histActs := hist2 }

/-- The replayer loop over the fallible environment. -/
def replayStepsF {Obs : Type} (E : FEnvModel Obs) (S : Int) :
    Nat → List Nat → RepFState Obs → Option (RepFState Obs)
  | _, [], st => some st
  | step, a :: rest, st =>
    match replayIterF E S step a st with
    | none => none
    | some st2 => replayStepsF E S (step + 1) rest st2

/-- Number of `env.close()` calls a replay performs (`replay.py`,
`main`): the single close at line 59 runs only after the initial reset
and the whole loop returned normally. -/
def replayCloses {Obs : Type} (E : FEnvModel Obs) (S : Int)
    (acts : List Nat) : Nat :=
  match E.resetObs (replayInitialSeed S) with
  | none => 0
  | some o0 =>
    match replayStepsF E S 0 acts
      { obs := o0, epSeed := replayInitialSeed S, histActs := [] } with
    | none => 0
    | some _ => 1

/-! ## Observation fingerprint (`src/envs/base.py`, `obs_hash`)

`obs_hash` builds `data = (obs.shape, contiguous_bytes)` and hashes
`str(data).encode()` with SHA-256. The pre-hash payload is therefore the
ASCII byte sequence of the Python `repr` of a pair of an int tuple and a
bytes object. That encoding is modelled here byte-for-byte as a
`List Nat` of byte values: decimal digits for each dimension, the CPython
tuple layout (comma-space separators, a trailing comma for a one-element
tuple), and the CPython `bytes.__repr__` layout (a `b` prefix, a quote
delimiter — double quote exactly when the content has a single quote but
no double quote — backslash escapes for backslash, tab, newline,
carriage return and the delimiter, literal ASCII for printable bytes,
and lowercase `\xHH` for the rest). SHA-256 itself is out of scope and
is treated as an arbitrary injective function where a claim needs it. -/

/-- Decimal digit bytes of `n`, most significant first (the Python
`repr` of a nonnegative int). -/
def natDigits (n : Nat) : List Nat :=
  if n < 10 then [48 + n]
  else natDigits (n / 10) ++ [48 + n % 10]
decreasing_by exact Nat.div_lt_self (by omega) (by omega)

/-- Value read back from a digit-byte list, for the round-trip proof. -/
def digitsVal (l : List Nat) : Nat :=
  l.foldl (fun acc c => acc * 10 + (c - 48)) 0

/-- Python's `", ".join`: comma-space between adjacent chunks. -/
def joinComma : List (List Nat) → List Nat
  | [] => []
  | [x] => x
  | x :: y :: t => x ++ [44, 32] ++ joinComma (y :: t)

/-- Byte sequence of the Python `repr` of an int tuple: open paren,
comma-space separated decimal items, a trailing comma when there is
exactly one item, close paren. -/
def pyTupleRepr (s : List Nat) : List Nat :=
  40 :: (joinComma (s.map natDigits) ++
    (if s.length = 1 then [44, 41] else [41]))

/-- Lowercase hex digit byte for `d < 16`. -/
def hexDigit (d : Nat) : Nat :=
  if d < 10 then 48 + d else 87 + d

/-- CPython escape of one byte inside a bytes literal delimited by quote
byte `q`: backslash, tab, newline, carriage return and the delimiter get
two-byte backslash escapes, printable ASCII stands for itself, anything
else becomes lowercase `\xHH`. -/
def escByte (q : Nat) (c : Nat) : List Nat :=
  if c = 92 then [92, 92]
  else if c = 9 then [92, 116]
  else if c = 10 then [92, 110]
  else if c = 13 then [92, 114]
  else if c = q then [92, q]
  else if 32 ≤ c ∧ c < 127 then [c]
  else [92, 120, hexDigit (c / 16), hexDigit (c % 16)]

/-- CPython's delimiter choice for a bytes repr: a double quote exactly
when the content contains a single quote but no double quote. -/
def bytesQuote (bs : List Nat) : Nat :=
  if 39 ∈ bs ∧ ¬ (34 ∈ bs) then 34 else 39

/-- Concatenated escapes of a byte string's content, left to right. -/
def escBytes (q : Nat) (bs : List Nat) : List Nat :=
  bs.foldr (fun c acc => escByte q c ++ acc) []

/-- Byte sequence of the Python `repr` of a bytes object. -/
def pyBytesRepr (bs : List Nat) : List Nat :=
  let q := bytesQuote bs
  98 :: q :: (escBytes q bs ++ [q])

/-- The full pre-hash payload of `obs_hash`: the UTF-8 (here pure ASCII)
bytes of `str((shape, contiguous_bytes))`. -/
def pyDataEncoding (shape bs : List Nat) : List Nat :=
  40 :: (pyTupleRepr shape ++ [44, 32] ++ pyBytesRepr bs ++ [41])

/-- `obs_hash` with the SHA-256 compression abstracted as `sha`:
hex digest of the encoded `(shape, bytes)` payload. -/
def obsHashM (sha : List Nat → String) (shape bs : List Nat) : String :=
  sha (pyDataEncoding shape bs)

/-! ## Loop invariants of the recorder and replayer -/

/-- `recordIter` leaves the recorded initial-reset seed untouched. -/
theorem recordIter_initialResetSeed {Obs σ : Type} (E : EnvModel Obs)
    (actFn : σ → Nat → Obs → Rat → Bool → σ × Nat) (S : Int)
    (singleEp : Bool) (step : Nat) (st : RecorderState Obs σ) :
    (recordIter E actFn S singleEp step st).1.initialResetSeed
      = st.initialResetSeed := by
  simp only [recordIter]
  split
  · split <;> rfl
  · rfl

/-- `recordIter` grows the mid-reset trace by nothing, or by the single
event `(step, recordReseed S step)`. -/
theorem recordIter_midResets {Obs σ : Type} (E : EnvModel Obs)
    (actFn : σ → Nat → Obs → Rat → Bool → σ × Nat) (S : Int)
    (singleEp : Bool) (step : Nat) (st : RecorderState Obs σ) :
    (recordIter E actFn S singleEp step st).1.midResets = st.midResets ∨
    (recordIter E actFn S singleEp step st).1.midResets
      = st.midResets ++ [(step, recordReseed S step)] := by
  simp only [recordIter]
  split
  · split
    · exact Or.inl rfl
    · exact Or.inr rfl
  · exact Or.inl rfl

/-- `recordIter` appends exactly the incoming `last_done` flag to the
trace of `done` arguments passed to `policy.act`. -/
theorem recordIter_actCallDones {Obs σ : Type} (E : EnvModel Obs)
    (actFn : σ → Nat → Obs → Rat → Bool → σ × Nat) (S : Int)
    (singleEp : Bool) (step : Nat) (st : RecorderState Obs σ) :
    (recordIter E actFn S singleEp step st).1.actCallDones
      = st.actCallDones ++ [st.lastDone] := by
  simp only [recordIter]
  split
  · split <;> rfl
  · rfl

/-- Whenever the recorder loop continues past an iteration, the
`last_done` flag it hands to the next iteration is false: either the step
was not done, or the episode was reseeded and the flag cleared. -/
theorem recordIter_lastDone_of_cont {Obs σ : Type} (E : EnvModel Obs)
    (actFn : σ → Nat → Obs → Rat → Bool → σ × Nat) (S : Int)
    (singleEp : Bool) (step : Nat) (st : RecorderState Obs σ)
    (h : (recordIter E actFn S singleEp step st).2 = true) :
    (recordIter E actFn S singleEp step st).1.lastDone = false := by
  revert h
  simp only [recordIter]
  split
  · split
    · intro h; exact absurd h (by simp)
    · intro _; rfl
  · rename_i hdone
    intro _
    simpa using hdone

/-- Mid-reset events accumulated by the recorder loop all carry the seed
`S + step + 1` for their done step, provided the incoming trace does. -/
theorem recordSteps_midResets {Obs σ : Type} (E : EnvModel Obs)
    (actFn : σ → Nat → Obs → Rat → Bool → σ × Nat) (S : Int)
    (singleEp : Bool) :
    ∀ (rem step : Nat) (st : RecorderState Obs σ),
      (st.midResets.all fun pr => decide (pr.2 = S + (pr.1 : Int) + 1)) = true →
      (((recordSteps E actFn S singleEp rem step st).midResets.all
        fun pr => decide (pr.2 = S + (pr.1 : Int) + 1)) = true)
  | 0, _, _, h => h
  | Nat.succ rem, step, st, h => by
    rw [recordSteps]
    have hmr := recordIter_midResets E actFn S singleEp step st
    have h2 : (((recordIter E actFn S singleEp step st).1.midResets.all
        fun pr => decide (pr.2 = S + (pr.1 : Int) + 1)) = true) := by
      rcases hmr with he | he <;> rw [he]
      · exact h
      · rw [List.all_append, h]
        simp [recordReseed]
    split
    · exact recordSteps_midResets E actFn S singleEp rem (step + 1) _ h2
    · exact h2

/-- The recorder loop preserves the recorded initial-reset seed. -/
theorem recordSteps_initialResetSeed {Obs σ : Type} (E : EnvModel Obs)
    (actFn : σ → Nat → Obs → Rat → Bool → σ × Nat) (S : Int)
    (singleEp : Bool) :
    ∀ (rem step : Nat) (st : RecorderState Obs σ),
      (recordSteps E actFn S singleEp rem step st).initialResetSeed
        = st.initialResetSeed
  | 0, _, _ => rfl
  | Nat.succ rem, step, st => by
    rw [recordSteps]
    have hi := recordIter_initialResetSeed E actFn S singleEp step st
    split
    · rw [recordSteps_initialResetSeed E actFn S singleEp rem (step + 1) _, hi]
    · exact hi

/-- The `done` flags passed to `policy.act` stay all-false through the
recorder loop, provided the loop enters with a cleared `last_done`. -/
theorem recordSteps_actCallDones {Obs σ : Type} (E : EnvModel Obs)
    (actFn : σ → Nat → Obs → Rat → Bool → σ × Nat) (S : Int)
    (singleEp : Bool) :
    ∀ (rem step : Nat) (st : RecorderState Obs σ),
      st.lastDone = false →
      (st.actCallDones.all fun b => !b) = true →
      (((recordSteps E actFn S singleEp rem step st).actCallDones.all
        fun b => !b) = true)
  | 0, _, _, _, h => h
  | Nat.succ rem, step, st, hd, h => by
    rw [recordSteps]
    have ht := recordIter_actCallDones E actFn S singleEp step st
    have h2 : (((recordIter E actFn S singleEp step st).1.actCallDones.all
        fun b => !b) = true) := by
      rw [ht, List.all_append, h, hd]
      rfl
    split
    · rename_i hc
      exact recordSteps_actCallDones E actFn S singleEp rem (step + 1) _
        (recordIter_lastDone_of_cont E actFn S singleEp step st hc) h2
    · exact h2

/-- `replayIter` leaves the recorded initial-reset seed untouched. -/
theorem replayIter_initialResetSeed {Obs : Type} (hashFn : Obs → String)
    (E : EnvModel Obs) (S : Int) (step : Nat) (a : Nat)
    (st : ReplayerState Obs) :
    (replayIter hashFn E S step a st).initialResetSeed
      = st.initialResetSeed := by
  simp only [replayIter]
  split <;> rfl

/-- `replayIter` grows the mid-reset trace by nothing, or by the single
event `(step, replayReseed S step)`. -/
theorem replayIter_midResets {Obs : Type} (hashFn : Obs → String)
    (E : EnvModel Obs) (S : Int) (step : Nat) (a : Nat)
    (st : ReplayerState Obs) :
    (replayIter hashFn E S step a st).midResets = st.midResets ∨
    (replayIter hashFn E S step a st).midResets
      = st.midResets ++ [(step, replayReseed S step)] := by
  simp only [replayIter]
  split
  · exact Or.inr rfl
  · exact Or.inl rfl

/-- Mid-reset events accumulated by the replayer loop all carry the seed
`S + step + 1` for their done step, provided the incoming trace does. -/
theorem replaySteps_midResets {Obs : Type} (hashFn : Obs → String)
    (E : EnvModel Obs) (S : Int) :
    ∀ (step : Nat) (acts : List Nat) (st : ReplayerState Obs),
      (st.midResets.all fun pr => decide (pr.2 = S + (pr.1 : Int) + 1)) = true →
      (((replaySteps hashFn E S step acts st).midResets.all
        fun pr => decide (pr.2 = S + (pr.1 : Int) + 1)) = true)
  | _, [], _, h => h
  | step, a :: rest, st, h => by
    rw [replaySteps]
    have hmr := replayIter_midResets hashFn E S step a st
    have h2 : (((replayIter hashFn E S step a st).midResets.all
        fun pr => decide (pr.2 = S + (pr.1 : Int) + 1)) = true) := by
      rcases hmr with he | he <;> rw [he]
      · exact h
      · rw [List.all_append, h]
        simp [replayReseed]
    exact replaySteps_midResets hashFn E S (step + 1) rest _ h2

/-- The replayer loop preserves the recorded initial-reset seed. -/
theorem replaySteps_initialResetSeed {Obs : Type} (hashFn : Obs → String)
    (E : EnvModel Obs) (S : Int) :
    ∀ (step : Nat) (acts : List Nat) (st : ReplayerState Obs),
      (replaySteps hashFn E S step acts st).initialResetSeed
        = st.initialResetSeed
  | _, [], _ => rfl
  | step, a :: rest, st => by
    rw [replaySteps,
      replaySteps_initialResetSeed hashFn E S (step + 1) rest _,
      replayIter_initialResetSeed]

/-- C1: the very first reset of a recording and of a replay both use the
base seed unmodified; every mid-run reset of either loop, issued when an
episode ends at 0-based global step `k`, uses seed `S + k + 1`; and the
recorder's reseed computation and the replayer's reseed computation are
the same function of the base seed and the done step. -/
theorem c1_seed_schedule_recorder_replayer_agree {Obs σ : Type}
    (E : EnvModel Obs) (actFn : σ → Nat → Obs → Rat → Bool → σ × Nat)
    (S : Int) (steps : Nat) (singleEp : Bool) (p0 : σ)
    (hashFn : Obs → String) (acts : List Nat) :
    (recordRun E actFn S steps singleEp p0).initialResetSeed = S ∧
    (replayRun hashFn E S acts).initialResetSeed = S ∧
    (((recordRun E actFn S steps singleEp p0).midResets.all
      fun pr => decide (pr.2 = S + (pr.1 : Int) + 1)) = true) ∧
    (((replayRun hashFn E S acts).midResets.all
      fun pr => decide (pr.2 = S + (pr.1 : Int) + 1)) = true) ∧
    recordReseed = replayReseed ∧
    recordInitialSeed = replayInitialSeed := by
  refine ⟨?_, ?_, ?_, ?_, rfl, rfl⟩
  · rw [recordRun, recordSteps_initialResetSeed]
    rfl
  · rw [replayRun, replaySteps_initialResetSeed]
    rfl
  · exact recordSteps_midResets E actFn S singleEp steps 0 _ rfl
  · exact replaySteps_midResets hashFn E S 0 acts _ rfl

/-- C10: in a recording, every `policy.act` call receives `done = false`:
the loop enters with `last_done = false`, and whenever it continues past
a done step the flag has been cleared by the reseed bookkeeping (or the
loop stopped, in the single-episode case). -/
theorem c10_recorder_never_passes_done {Obs σ : Type} (E : EnvModel Obs)
    (actFn : σ → Nat → Obs → Rat → Bool → σ × Nat) (S : Int) (steps : Nat)
    (singleEp : Bool) (p0 : σ) :
    (((recordRun E actFn S steps singleEp p0).actCallDones.all
      fun b => !b) = true) := by
  exact recordSteps_actCallDones E actFn S singleEp steps 0 _ rfl rfl

/-- C3: the verdict block declares reward match exactly when the absolute
difference is below `1e-6` and hash match exactly when the two digests
are equal strings; it reports all four expected/actual values; and it
exits 0 exactly when both checks hold and 2 exactly when either fails. -/
theorem c3_replay_verdict_contract {Obs : Type} (expectedReward : Rat)
    (expectedHash : String) (st : ReplayerState Obs) :
    ((replayVerdict expectedReward expectedHash st).okReward = true ↔
      abs (st.totalReward - expectedReward) < rewardTol) ∧
    ((replayVerdict expectedReward expectedHash st).okHash = true ↔
      st.lastHash = expectedHash) ∧
    (replayVerdict expectedReward expectedHash st).expectedTotalReward
      = expectedReward ∧
    (replayVerdict expectedReward expectedHash st).actualTotalReward
      = st.totalReward ∧
    (replayVerdict expectedReward expectedHash st).expectedFinalHash
      = expectedHash ∧
    (replayVerdict expectedReward expectedHash st).actualFinalHash
      = st.lastHash ∧
    ((replayVerdict expectedReward expectedHash st).exitCode = 0 ↔
      (abs (st.totalReward - expectedReward) < rewardTol ∧
        st.lastHash = expectedHash)) ∧
    ((replayVerdict expectedReward expectedHash st).exitCode = 2 ↔
      ¬ (abs (st.totalReward - expectedReward) < rewardTol ∧
        st.lastHash = expectedHash)) := by
  refine ⟨by simp [replayVerdict], by simp [replayVerdict], rfl, rfl, rfl,
    rfl, ?_, ?_⟩
  · simp only [replayVerdict]
    by_cases hr : abs (st.totalReward - expectedReward) < rewardTol <;>
      by_cases hh : st.lastHash = expectedHash <;>
      simp [hr, hh]
  · simp only [replayVerdict]
    by_cases hr : abs (st.totalReward - expectedReward) < rewardTol <;>
      by_cases hh : st.lastHash = expectedHash <;>
      simp [hr, hh]

/-- C6: `StickyDirectionalPolicy.act` evaluates its transitions in the
spec's precedence order: the episode-boundary rule first (counter
cleared, direction returned unchanged, generator untouched), then the
progress bookkeeping, then the jitter check whose firing returns
immediately and so pre-empts the stuck-rotation check. -/
theorem c6_sticky_act_precedence (p : StickyPolicyState) (step : Nat)
    (reward : Rat) (done : Bool) :
    stickyAct p step reward done = stickyActSpecOrder p step reward done := by
  cases done with
  | true => rfl
  | false =>
    dsimp only [stickyAct, stickyActSpecOrder, stickySpecProgress,
      stickySpecJitter, stickySpecStuck]
    repeat first | rfl | split
    all_goals subst_eqs
    all_goals try simp_all
    by_cases hj : (rngNextFloat p.rng).1 < p.jitterProb
    · simp [hj]
    · simp only [hj, if_false, ite_false]
      split <;> rfl

/-! ## A concrete single-episode recording and its replay

A minimal deterministic environment exhibiting the single-episode
boundary: every step terminates the episode immediately, so a
single-episode recording stops after one action with the post-step
observation as its fingerprint, while the replayer — which never
consults the artifact's `single_episode` flag — still reseeds after that
final done and fingerprints the post-reset observation instead. -/

/-- Toy deterministic environment: `reset(s)` observes `s` itself, every
step observes `1000`, yields reward `1` and terminates. -/
def demoEnv : EnvModel Int :=
  { resetObs := fun s => s
    stepOut := fun _ _ =>
      { obs := 1000, reward := 1, terminated := true, truncated := false } }

/-- Toy injective observation fingerprint for the demo environment. -/
def demoHash (n : Int) : String :=
  toString n

/-- Stateless policy that always plays action 0. -/
def constAct (s : Unit) (_step : Nat) (_obs : Int) (_reward : Rat)
    (_done : Bool) : Unit × Nat :=
  (s, 0)

/-- The artifact of a single-episode demo recording with base seed 5 and
a 10-step budget. -/
def demoArtifact : RunArtifactM :=
  recordArtifact demoHash demoEnv constAct 5 10 true ()

/-- The replay of the single-episode demo artifact. -/
def demoReplay : ReplayerState Int :=
  replayRun demoHash demoEnv 5 demoArtifact.actions

/-- C2: evaluated counter-evidence. The single-episode demo recording
stops at the first done with one action, total reward 1 and fingerprint
`"1000"` (the post-step observation); replaying its action list performs
a mid-run reseed `(0, 6)` after the final done — although the artifact
says `single_episode = true` — and ends with fingerprint `"6"` taken
from the post-reset observation, so the hash check fails and the replay
process exits 2 on an artifact the recorder itself produced. -/
theorem c2_single_episode_replay_hash_divergence :
    demoArtifact.singleEpisode = true ∧
    demoArtifact.actions = [0] ∧
    demoArtifact.totalReward = 1 ∧
    demoArtifact.finalObsHash = "1000" ∧
    demoReplay.midResets = [(0, 6)] ∧
    demoReplay.totalReward = demoArtifact.totalReward ∧
    demoReplay.lastHash = "6" ∧
    demoReplay.lastHash ≠ demoArtifact.finalObsHash ∧
    (replayVerdict demoArtifact.totalReward demoArtifact.finalObsHash
      demoReplay).okReward = true ∧
    (replayVerdict demoArtifact.totalReward demoArtifact.finalObsHash
      demoReplay).okHash = false ∧
    (replayVerdict demoArtifact.totalReward demoArtifact.finalObsHash
      demoReplay).exitCode = 2 := by
  have hart : demoArtifact =
      { actions := [0], totalReward := (0 : Rat) + 1,
        finalObsHash := demoHash 1000, seed := 5, singleEpisode := true } :=
    rfl
  have hrep : demoReplay =
      { obs := demoEnv.resetObs (replayReseed 5 0)
        epSeed := replayReseed 5 0
        histActs := []
        totalReward := (0 : Rat) + 1
        lastHash := demoHash (demoEnv.resetObs (replayReseed 5 0))
        initialResetSeed := 5
        midResets := [(0, replayReseed 5 0)] } :=
    rfl
  have hseed : replayReseed 5 0 = 6 := by decide
  have hh1000 : demoHash 1000 = "1000" := by decide
  have hh6 : demoHash (demoEnv.resetObs 6) = "6" := by decide
  rw [hart, hrep, hseed, hh1000, hh6]
  refine ⟨rfl, rfl, by norm_num, rfl, rfl, rfl, rfl, by decide, ?_, ?_, ?_⟩
  · simp [replayVerdict]
    norm_num [rewardTol]
  · simp [replayVerdict]
  · simp [replayVerdict]

/-! ## Close-once on the fault-free paths, and not on faulting ones -/

/-- A fallible environment that never actually raises. -/
def FTotal {Obs : Type} (E : FEnvModel Obs) : Prop :=
  (∀ s, (E.resetObs s).isSome = true) ∧
  (∀ s h, (E.stepOut s h).isSome = true)

/-- Over a never-raising environment, one recorder iteration always
returns normally. -/
theorem recordIterF_isSome {Obs σ : Type} (E : FEnvModel Obs)
    (actFn : σ → Nat → Obs → Rat → Bool → σ × Nat) (S : Int)
    (singleEp : Bool) (step : Nat) (st : RecFState Obs σ)
    (hT : FTotal E) :
    (recordIterF E actFn S singleEp step st).isSome = true := by
  simp only [recordIterF]
  cases hE : E.stepOut st.epSeed (st.histActs ++
      [(actFn st.polS step st.obs st.lastReward st.lastDone).2]) with
  | none =>
    have := hT.2 st.epSeed (st.histActs ++
      [(actFn st.polS step st.obs st.lastReward st.lastDone).2])
    rw [hE] at this
    exact absurd this (by simp)
  | some sr =>
    dsimp only
    split
    · split
      · rfl
      · cases hR : E.resetObs (recordReseed S step) with
        | none =>
          have := hT.1 (recordReseed S step)
          rw [hR] at this
          exact absurd this (by simp)
        | some o2 => rfl
    · rfl

/-- Over a never-raising environment, the whole recorder loop returns
normally. -/
theorem recordStepsF_isSome {Obs σ : Type} (E : FEnvModel Obs)
    (actFn : σ → Nat → Obs → Rat → Bool → σ × Nat) (S : Int)
    (singleEp : Bool) (hT : FTotal E) :
    ∀ (rem step : Nat) (st : RecFState Obs σ),
      (recordStepsF E actFn S singleEp rem step st).isSome = true
  | 0, _, _ => rfl
  | Nat.succ rem, step, st => by
    rw [recordStepsF]
    cases hI : recordIterF E actFn S singleEp step st with
    | none =>
      have := recordIterF_isSome E actFn S singleEp step st hT
      rw [hI] at this
      exact absurd this (by simp)
    | some r =>
      dsimp only
      split
      · exact recordStepsF_isSome E actFn S singleEp hT rem (step + 1) r.1
      · rfl

/-- Over a never-raising environment, one replayer iteration always
returns normally. -/
theorem replayIterF_isSome {Obs : Type} (E : FEnvModel Obs) (S : Int)
    (step : Nat) (a : Nat) (st : RepFState Obs) (hT : FTotal E) :
    (replayIterF E S step a st).isSome = true := by
  simp only [replayIterF]
  cases hE : E.stepOut st.epSeed (st.histActs ++ [a]) with
  | none =>
    have := hT.2 st.epSeed (st.histActs ++ [a])
    rw [hE] at this
    exact absurd this (by simp)
  | some sr =>
    dsimp only
    split
    · cases hR : E.resetObs (replayReseed S step) with
      | none =>
        have := hT.1 (replayReseed S step)
        rw [hR] at this
        exact absurd this (by simp)
      | some o2 => rfl
    · rfl

/-- Over a never-raising environment, the whole replayer loop returns
normally. -/
theorem replayStepsF_isSome {Obs : Type} (E : FEnvModel Obs) (S : Int)
    (hT : FTotal E) :
    ∀ (step : Nat) (acts : List Nat) (st : RepFState Obs),
      (replayStepsF E S step acts st).isSome = true
  | _, [], _ => rfl
  | step, a :: rest, st => by
    rw [replayStepsF]
    cases hI : replayIterF E S step a st with
    | none =>
      have := replayIterF_isSome E S step a st hT
      rw [hI] at this
      exact absurd this (by simp)
    | some st2 =>
      exact replayStepsF_isSome E S hT (step + 1) rest st2

/-- C5 (amended): on every run over an environment whose reset and step
never raise — which covers normal completion of the step budget and
early single-episode termination — both the recorder and the replayer
close the environment handle exactly once; the unamended claim's
error-path half fails, see the counterexample. -/
theorem c5_close_once_on_normal_paths {Obs σ : Type} (E : FEnvModel Obs)
    (actFn : σ → Nat → Obs → Rat → Bool → σ × Nat) (S : Int) (steps : Nat)
    (singleEp : Bool) (p0 : σ) (acts : List Nat) (hT : FTotal E) :
    recordCloses E actFn S steps singleEp p0 = 1 ∧
    replayCloses E S acts = 1 := by
  constructor
  · rw [recordCloses]
    cases hR : E.resetObs (recordInitialSeed S) with
    | none =>
      have := hT.1 (recordInitialSeed S)
      rw [hR] at this
      exact absurd this (by simp)
    | some o0 =>
      dsimp only
      cases hS : recordStepsF E actFn S singleEp steps 0
          { polS := p0, obs := o0, epSeed := recordInitialSeed S,
            histActs := [], lastReward := 0, lastDone := false } with
      | none =>
        have := recordStepsF_isSome E actFn S singleEp hT steps 0
          { polS := p0, obs := o0, epSeed := recordInitialSeed S,
            histActs := [], lastReward := 0, lastDone := false }
        rw [hS] at this
        exact absurd this (by simp)
      | some _ => rfl
  · rw [replayCloses]
    cases hR : E.resetObs (replayInitialSeed S) with
    | none =>
      have := hT.1 (replayInitialSeed S)
      rw [hR] at this
      exact absurd this (by simp)
    | some o0 =>
      dsimp only
      cases hS : replayStepsF E S 0 acts
          { obs := o0, epSeed := replayInitialSeed S, histActs := [] } with
      | none =>
        have := replayStepsF_isSome E S hT 0 acts
          { obs := o0, epSeed := replayInitialSeed S, histActs := [] }
        rw [hS] at this
        exact absurd this (by simp)
      | some _ => rfl

/-- A concrete never-raising environment for the C5 witness. -/
def liveFEnv : FEnvModel Int :=
  { resetObs := fun s => some s
    stepOut := fun _ _ =>
      some { obs := 0, reward := 0, terminated := false, truncated := false } }

/-- Witness for C5 at a concrete never-raising environment: a 3-step
recording and a 2-action replay each close the handle exactly once. -/
theorem c5_close_once_on_normal_paths_witness :
    recordCloses liveFEnv constAct 7 3 false () = 1 ∧
    replayCloses liveFEnv 7 [0, 0] = 1 :=
  c5_close_once_on_normal_paths liveFEnv constAct 7 3 false () [0, 0]
    ⟨fun _ => rfl, fun _ _ => rfl⟩

/-- A concrete environment whose very first step raises. -/
def faultFEnv : FEnvModel Int :=
  { resetObs := fun s => some s
    stepOut := fun _ _ => none }

/-- Counterexample to C5 as stated: when `env.step` raises, both the
recorder and the replayer propagate the exception without ever reaching
their close statement, so the handle is closed zero times — not exactly
once on every exit path. -/
theorem c5_close_skipped_on_error_counterexample :
    recordCloses faultFEnv constAct 7 3 false () = 0 ∧
    ¬ recordCloses faultFEnv constAct 7 3 false () = 1 ∧
    replayCloses faultFEnv 7 [0, 0] = 0 ∧
    ¬ replayCloses faultFEnv 7 [0, 0] = 1 := by
  refine ⟨rfl, ?_, rfl, ?_⟩ <;> decide

/-! ## Rotation at the stuck threshold (sticky policy, no jitter) -/

/-- One `act` call with zero reward, `done = false`, a nonnegative next
float draw, a non-positive jitter probability and a counter still below
the threshold: the counter increments, one float is drawn, and the
current direction is returned unchanged. -/
theorem stickyAct_noRotate (p : StickyPolicyState) (k : Nat)
    (h0 : 0 ≤ p.rng.model.floats p.rng.pos) (hj : p.jitterProb ≤ 0)
    (hs : p.sinceProgress + 1 < p.stuckWindow) :
    stickyAct p k 0 false =
      ({ p with
          sinceProgress := p.sinceProgress + 1
          rng := { model := p.rng.model, pos := p.rng.pos + 1 } },
        p.curAction) := by
  dsimp only [stickyAct, rngNextFloat]
  rw [if_neg (by norm_num : ¬ ((0 : Rat) > 0))]
  dsimp only
  rw [if_neg (not_lt.mpr (le_trans hj h0))]
  rw [if_neg (not_le.mpr hs)]
  simp

/-- One `act` call as above but with the incremented counter reaching
the threshold: the policy advances to the next direction in cyclic
order, resets the counter and returns the new direction. -/
theorem stickyAct_rotate (p : StickyPolicyState) (k : Nat)
    (h0 : 0 ≤ p.rng.model.floats p.rng.pos) (hj : p.jitterProb ≤ 0)
    (hs : p.stuckWindow ≤ p.sinceProgress + 1) :
    stickyAct p k 0 false =
      ({ p with
          sinceProgress := 0
          rng := { model := p.rng.model, pos := p.rng.pos + 1 }
          curIdx := (p.curIdx + 1) % p.dirActions.length
          curAction := p.dirActions.getD ((p.curIdx + 1) % p.dirActions.length) 0 },
        p.dirActions.getD ((p.curIdx + 1) % p.dirActions.length) 0) := by
  dsimp only [stickyAct, rngNextFloat]
  rw [if_neg (by norm_num : ¬ ((0 : Rat) > 0))]
  dsimp only
  rw [if_neg (not_lt.mpr (le_trans hj h0))]
  rw [if_pos hs]
  simp

/-- Six consecutive zero-reward `act` calls from a fresh state with
`stuck_window = 5` and `jitter_prob = 0`: the first four return the
initial direction, the fifth call reaches the threshold and rotates, and
the sixth returns the rotated direction. -/
theorem stickySixCallsCore (m : RngModel) (ms : List String) (ds : List Nat) (n0 : Nat)
    (hrng : ∀ k, 0 ≤ m.floats k) (hlen : 2 ≤ ds.length) :
    stickyRunActions
      { stuckWindow := 5, jitterProb := 0, rng := { model := m, pos := 0 },
        n := n0, meanings := ms, dirActions := ds, curIdx := 0,
        curAction := ds.getD 0 0, sinceProgress := 0 } 0
      [(0, false), (0, false), (0, false), (0, false), (0, false), (0, false)]
      = [ds.getD 0 0, ds.getD 0 0, ds.getD 0 0, ds.getD 0 0,
         ds.getD 1 0, ds.getD 1 0] := by
  have hmod : (0 + 1) % ds.length = 1 := Nat.mod_eq_of_lt (by omega)
  have e1 : ∀ k, stickyAct
      { stuckWindow := 5, jitterProb := 0, rng := { model := m, pos := 0 },
        n := n0, meanings := ms, dirActions := ds, curIdx := 0,
        curAction := ds.getD 0 0, sinceProgress := 0 } k 0 false =
      (({ stuckWindow := 5, jitterProb := 0, rng := { model := m, pos := 1 },
          n := n0, meanings := ms, dirActions := ds, curIdx := 0,
          curAction := ds.getD 0 0, sinceProgress := 1 } : StickyPolicyState),
        ds.getD 0 0) :=
    fun k => stickyAct_noRotate _ k (hrng 0) (le_refl 0) (by norm_num)
  have e2 : ∀ k, stickyAct
      { stuckWindow := 5, jitterProb := 0, rng := { model := m, pos := 1 },
        n := n0, meanings := ms, dirActions := ds, curIdx := 0,
        curAction := ds.getD 0 0, sinceProgress := 1 } k 0 false =
      (({ stuckWindow := 5, jitterProb := 0, rng := { model := m, pos := 2 },
          n := n0, meanings := ms, dirActions := ds, curIdx := 0,
          curAction := ds.getD 0 0, sinceProgress := 2 } : StickyPolicyState),
        ds.getD 0 0) :=
    fun k => stickyAct_noRotate _ k (hrng 1) (le_refl 0) (by norm_num)
  have e3 : ∀ k, stickyAct
      { stuckWindow := 5, jitterProb := 0, rng := { model := m, pos := 2 },
        n := n0, meanings := ms, dirActions := ds, curIdx := 0,
        curAction := ds.getD 0 0, sinceProgress := 2 } k 0 false =
      (({ stuckWindow := 5, jitterProb := 0, rng := { model := m, pos := 3 },
          n := n0, meanings := ms, dirActions := ds, curIdx := 0,
          curAction := ds.getD 0 0, sinceProgress := 3 } : StickyPolicyState),
        ds.getD 0 0) :=
    fun k => stickyAct_noRotate _ k (hrng 2) (le_refl 0) (by norm_num)
  have e4 : ∀ k, stickyAct
      { stuckWindow := 5, jitterProb := 0, rng := { model := m, pos := 3 },
        n := n0, meanings := ms, dirActions := ds, curIdx := 0,
        curAction := ds.getD 0 0, sinceProgress := 3 } k 0 false =
      (({ stuckWindow := 5, jitterProb := 0, rng := { model := m, pos := 4 },
          n := n0, meanings := ms, dirActions := ds, curIdx := 0,
          curAction := ds.getD 0 0, sinceProgress := 4 } : StickyPolicyState),
        ds.getD 0 0) :=
    fun k => stickyAct_noRotate _ k (hrng 3) (le_refl 0) (by norm_num)
  have e5 : ∀ k, stickyAct
      { stuckWindow := 5, jitterProb := 0, rng := { model := m, pos := 4 },
        n := n0, meanings := ms, dirActions := ds, curIdx := 0,
        curAction := ds.getD 0 0, sinceProgress := 4 } k 0 false =
      (({ stuckWindow := 5, jitterProb := 0, rng := { model := m, pos := 5 },
          n := n0, meanings := ms, dirActions := ds, curIdx := (0 + 1) % ds.length,
          curAction := ds.getD ((0 + 1) % ds.length) 0, sinceProgress := 0 } : StickyPolicyState),
        ds.getD ((0 + 1) % ds.length) 0) :=
    fun k => stickyAct_rotate _ k (hrng 4) (le_refl 0) (by norm_num)
  rw [hmod] at e5
  have e6 : ∀ k, stickyAct
      { stuckWindow := 5, jitterProb := 0, rng := { model := m, pos := 5 },
        n := n0, meanings := ms, dirActions := ds, curIdx := 1,
        curAction := ds.getD 1 0, sinceProgress := 0 } k 0 false =
      (({ stuckWindow := 5, jitterProb := 0, rng := { model := m, pos := 6 },
          n := n0, meanings := ms, dirActions := ds, curIdx := 1,
          curAction := ds.getD 1 0, sinceProgress := 1 } : StickyPolicyState),
        ds.getD 1 0) :=
    fun k => stickyAct_noRotate _ k (hrng 5) (le_refl 0) (by norm_num)
  simp only [stickyRunActions]
  rw [e1]
  dsimp only
  rw [e2]
  dsimp only
  rw [e3]
  dsimp only
  rw [e4]
  dsimp only
  rw [e5]
  dsimp only
  rw [e6]

/-- C7: with `stuck_window = 5` and `jitter_prob = 0`, freshly reset on a
vocabulary yielding at least two distinct directional actions, the six
zero-reward `act` calls return the first direction four times and the
second direction twice — so the 6th call's action differs from the 1st
call's, rotation does not fire before the counter reaches the threshold,
and it fires exactly at the call where it does. -/
theorem c7_sticky_rotation_at_threshold (q : StickyPolicyState)
    (mk : Int → RngModel) (seed : Int) (meanings : List String) (n : Nat)
    (hw : q.stuckWindow = 5) (hj : q.jitterProb = 0)
    (hrng : ∀ k, 0 ≤ (mk seed).floats k)
    (hlen : 2 ≤ (stickyDirActions meanings n).length)
    (hne : (stickyDirActions meanings n).getD 1 0
      ≠ (stickyDirActions meanings n).getD 0 0) :
    stickyRunActions (stickyReset q mk seed meanings n) 0
      [(0, false), (0, false), (0, false), (0, false), (0, false), (0, false)]
      = [(stickyDirActions meanings n).getD 0 0,
         (stickyDirActions meanings n).getD 0 0,
         (stickyDirActions meanings n).getD 0 0,
         (stickyDirActions meanings n).getD 0 0,
         (stickyDirActions meanings n).getD 1 0,
         (stickyDirActions meanings n).getD 1 0] ∧
    (stickyDirActions meanings n).getD 1 0
      ≠ (stickyDirActions meanings n).getD 0 0 := by
  have hst : stickyReset q mk seed meanings n =
      { stuckWindow := 5, jitterProb := 0,
        rng := { model := mk seed, pos := 0 }, n := n, meanings := meanings,
        dirActions := stickyDirActions meanings n, curIdx := 0,
        curAction := (stickyDirActions meanings n).getD 0 0,
        sinceProgress := 0 } := by
    simp only [stickyReset]
    rw [hw, hj]
  rw [hst]
  exact ⟨stickySixCallsCore (mk seed) meanings (stickyDirActions meanings n) n
    hrng hlen, hne⟩

/-- A constant generator stream for the policy witnesses. -/
def zeroRngModel : RngModel :=
  { floats := fun _ => 0, ints := fun _ _ => 0 }

/-- A blank sticky state configured with `stuck_window = 5` and
`jitter_prob = 0`, standing for `StickyDirectionalPolicy(stuck_window=5,
jitter_prob=0.0)` before its first `reset`. -/
def stickyFive : StickyPolicyState :=
  { stuckWindow := 5, jitterProb := 0
    rng := { model := zeroRngModel, pos := 0 }
    n := 0, meanings := [], dirActions := []
    curIdx := 0, curAction := 0, sinceProgress := 0 }

/-- Witness for C7 on the full ALE-style directional vocabulary: the six
zero-reward calls return `[0, 0, 0, 0, 1, 1]`. -/
theorem c7_sticky_rotation_at_threshold_witness :
    stickyRunActions
      (stickyReset stickyFive (fun _ => zeroRngModel) 42
        ["UP", "RIGHT", "DOWN", "LEFT"] 4) 0
      [(0, false), (0, false), (0, false), (0, false), (0, false), (0, false)]
      = [0, 0, 0, 0, 1, 1] ∧ (1 : Nat) ≠ 0 := by
  have h := c7_sticky_rotation_at_threshold stickyFive (fun _ => zeroRngModel)
    42 ["UP", "RIGHT", "DOWN", "LEFT"] 4 rfl rfl (fun _ => le_refl 0)
    (by decide) (by decide)
  constructor
  · rw [h.1]
    decide
  · decide

/-! ## Reset makes the policy state a function of its arguments -/

/-- C8: after `reset(seed, vocabulary, action_count)` a policy's future
actions do not depend on anything that happened to the instance before
the reset. `RandomPolicy.reset` rebuilds its whole state, so any two
prior states collapse to the same one; `StickyDirectionalPolicy.reset`
rebuilds everything except its constructor parameters `stuck_window` and
`jitter_prob`, so two instances of the same configuration collapse to
the same state; in both cases identical subsequent `act` sequences
produce identical action sequences, in particular two RandomPolicy
instances reset with the same seed and action count agree at every step
index. -/
theorem c8_reset_idempotent_per_seed (mk : Int → RngModel) (seed : Int)
    (meanings : List String) (n : Nat) (k : Nat)
    (inputs : List (Rat × Bool)) (p q : RandomPolicyState)
    (ps qs : StickyPolicyState)
    (hw : ps.stuckWindow = qs.stuckWindow)
    (hj : ps.jitterProb = qs.jitterProb) :
    randomReset p mk seed meanings n = randomReset q mk seed meanings n ∧
    randomRunActions (randomReset p mk seed meanings n) k inputs
      = randomRunActions (randomReset q mk seed meanings n) k inputs ∧
    stickyReset ps mk seed meanings n = stickyReset qs mk seed meanings n ∧
    stickyRunActions (stickyReset ps mk seed meanings n) k inputs
      = stickyRunActions (stickyReset qs mk seed meanings n) k inputs := by
  have hs : stickyReset ps mk seed meanings n
      = stickyReset qs mk seed meanings n := by
    simp only [stickyReset]
    rw [hw, hj]
  exact ⟨rfl, rfl, hs, by rw [hs]⟩

/-- Witness for C8: two random-policy states with different generator
positions and action counts, and two sticky states of equal
configuration but different histories, agree after the same reset. -/
theorem c8_reset_idempotent_per_seed_witness :
    randomReset { rng := { model := zeroRngModel, pos := 5 }, n := 9 }
        (fun _ => zeroRngModel) 3 ["A", "B"] 2
      = randomReset { rng := { model := zeroRngModel, pos := 0 }, n := 2 }
        (fun _ => zeroRngModel) 3 ["A", "B"] 2 ∧
    randomRunActions
        (randomReset { rng := { model := zeroRngModel, pos := 5 }, n := 9 }
          (fun _ => zeroRngModel) 3 ["A", "B"] 2) 0 [(0, false), (1, true)]
      = randomRunActions
        (randomReset { rng := { model := zeroRngModel, pos := 0 }, n := 2 }
          (fun _ => zeroRngModel) 3 ["A", "B"] 2) 0 [(0, false), (1, true)] ∧
    stickyReset stickyFive (fun _ => zeroRngModel) 3 ["A", "B"] 2
      = stickyReset
        { stickyFive with sinceProgress := 3, curIdx := 1, curAction := 7 }
        (fun _ => zeroRngModel) 3 ["A", "B"] 2 ∧
    stickyRunActions
        (stickyReset stickyFive (fun _ => zeroRngModel) 3 ["A", "B"] 2) 0
        [(0, false), (1, true)]
      = stickyRunActions
        (stickyReset
          { stickyFive with sinceProgress := 3, curIdx := 1, curAction := 7 }
          (fun _ => zeroRngModel) 3 ["A", "B"] 2) 0 [(0, false), (1, true)] :=
  c8_reset_idempotent_per_seed (fun _ => zeroRngModel) 3 ["A", "B"] 2 0
    [(0, false), (1, true)]
    { rng := { model := zeroRngModel, pos := 5 }, n := 9 }
    { rng := { model := zeroRngModel, pos := 0 }, n := 2 }
    stickyFive
    { stickyFive with sinceProgress := 3, curIdx := 1, curAction := 7 }
    rfl rfl

/-! ## Actions stay inside the action space -/

/-- Python `list.index` of a present element is a valid index. -/
theorem firstIndex_lt_length (d : String) :
    ∀ (l : List String), d ∈ l → firstIndex d l < l.length
  | [], h => absurd h (by simp)
  | y :: ys, h => by
    rw [firstIndex]
    split
    · simp
    · rename_i hne
      have hd : d ∈ ys := by
        rcases List.mem_cons.mp h with h1 | h1
        · exact absurd h1.symm hne
        · exact h1
      have := firstIndex_lt_length d ys hd
      simp only [List.length_cons]
      omega

/-- The direction list built by `reset` is nonempty and all its entries
are valid action indices, given a positive action count and a vocabulary
of exactly that length. -/
theorem stickyDirActions_sound (meanings : List String) (n : Nat)
    (hn : 0 < n) (hlen : meanings.length = n) :
    stickyDirActions meanings n ≠ [] ∧
    ∀ a ∈ stickyDirActions meanings n, a < n := by
  simp only [stickyDirActions]
  split
  · constructor
    · rw [Ne, List.range_eq_nil]
      omega
    · intro a ha
      rw [List.mem_range] at ha
      omega
  · rename_i hfound
    constructor
    · intro hc
      rw [hc] at hfound
      exact hfound rfl
    · intro a ha
      obtain ⟨d, hd, hda⟩ := List.mem_map.mp ha
      have hdm : d ∈ meanings := by
        have := (List.mem_filter.mp hd).2
        simpa using this
      have := firstIndex_lt_length d meanings hdm
      omega

/-- Invariant of a sticky state: nonempty direction list of valid action
indices, a valid current index, a current action drawn from the list,
and a well-formed generator stream. -/
def StickyInv (n : Nat) (p : StickyPolicyState) : Prop :=
  p.dirActions ≠ [] ∧ (∀ a ∈ p.dirActions, a < n) ∧
  p.curIdx < p.dirActions.length ∧ p.curAction ∈ p.dirActions ∧
  RngWF p.rng.model ∧ p.n = n

/-- `reset` establishes the sticky invariant. -/
theorem stickyReset_inv (p : StickyPolicyState) (mk : Int → RngModel)
    (seed : Int) (meanings : List String) (n : Nat) (hn : 0 < n)
    (hlen : meanings.length = n) (hwf : RngWF (mk seed)) :
    StickyInv n (stickyReset p mk seed meanings n) := by
  obtain ⟨h1, h2⟩ := stickyDirActions_sound meanings n hn hlen
  have hlp : 0 < (stickyDirActions meanings n).length :=
    List.length_pos.mpr h1
  refine ⟨h1, h2, hlp, ?_, hwf, rfl⟩
  show (stickyDirActions meanings n).getD 0 0 ∈ stickyDirActions meanings n
  rw [List.getD_eq_getElem _ _ hlp]
  exact List.getElem_mem _

/-- `act` preserves the sticky invariant and returns a valid action
index. -/
theorem stickyAct_inv (n : Nat) (p : StickyPolicyState) (k : Nat)
    (r : Rat) (d : Bool) (h : StickyInv n p) :
    StickyInv n (stickyAct p k r d).1 ∧ (stickyAct p k r d).2 < n := by
  obtain ⟨hne, hlt, hidx, hmem, hwf, hn⟩ := h
  have hlp : 0 < p.dirActions.length := List.length_pos.mpr hne
  have hgd : ∀ i, i < p.dirActions.length →
      p.dirActions.getD i 0 ∈ p.dirActions := by
    intro i hi
    rw [List.getD_eq_getElem _ _ hi]
    exact List.getElem_mem _
  cases d with
  | true => exact ⟨⟨hne, hlt, hidx, hmem, hwf, hn⟩, hlt _ hmem⟩
  | false =>
    dsimp only [stickyAct, rngNextFloat, rngNextInt]
    rw [if_neg (by simp : ¬ (false = true))]
    by_cases hr : r > 0 <;>
      simp only [hr, if_true, if_false, ite_true, ite_false] <;>
      split_ifs with h1 h2
    · have hj := hwf.2 p.rng.pos.succ p.dirActions.length hlp
      exact ⟨⟨hne, hlt, hj, hgd _ hj, hwf, hn⟩, hlt _ (hgd _ hj)⟩
    · have hm := Nat.mod_lt (p.curIdx + 1) hlp
      exact ⟨⟨hne, hlt, hm, hgd _ hm, hwf, hn⟩, hlt _ (hgd _ hm)⟩
    · exact ⟨⟨hne, hlt, hidx, hmem, hwf, hn⟩, hlt _ hmem⟩
    · have hj := hwf.2 p.rng.pos.succ p.dirActions.length hlp
      exact ⟨⟨hne, hlt, hj, hgd _ hj, hwf, hn⟩, hlt _ (hgd _ hj)⟩
    · have hm := Nat.mod_lt (p.curIdx + 1) hlp
      exact ⟨⟨hne, hlt, hm, hgd _ hm, hwf, hn⟩, hlt _ (hgd _ hm)⟩
    · exact ⟨⟨hne, hlt, hidx, hmem, hwf, hn⟩, hlt _ hmem⟩

/-- Every action of a sticky run from an invariant-satisfying state is a
valid index. -/
theorem stickyRun_all_lt (n : Nat) :
    ∀ (inputs : List (Rat × Bool)) (k : Nat) (p : StickyPolicyState),
      StickyInv n p →
      ((stickyRunActions p k inputs).all fun a => decide (a < n)) = true
  | [], _, _, _ => rfl
  | i :: rest, k, p, h => by
    obtain ⟨h2, hlt2⟩ := stickyAct_inv n p k i.1 i.2 h
    rw [stickyRunActions]
    simp only [List.all_cons, Bool.and_eq_true, decide_eq_true_eq]
    exact ⟨hlt2, stickyRun_all_lt n rest (k + 1) _ h2⟩

/-- Every action of a random-policy run is a valid index. -/
theorem randomRun_all_lt (n : Nat) (hn : 0 < n) :
    ∀ (inputs : List (Rat × Bool)) (k : Nat) (p : RandomPolicyState),
      p.n = n → RngWF p.rng.model →
      ((randomRunActions p k inputs).all fun a => decide (a < n)) = true
  | [], _, _, _, _ => rfl
  | i :: rest, k, p, hpn, hwf => by
    rw [randomRunActions]
    simp only [List.all_cons, Bool.and_eq_true, decide_eq_true_eq]
    refine ⟨?_, randomRun_all_lt n hn rest (k + 1) _ hpn hwf⟩
    dsimp only [randomAct, rngNextInt]
    rw [hpn]
    exact hwf.2 _ _ hn

/-- With no recognized directional name and fewer than four actions, the
fallback direction set is exactly the `n` existing actions. -/
theorem stickyDirActions_small_fallback (meanings : List String) (n : Nat)
    (hno : (dirNames.all fun d => decide (¬ d ∈ meanings)) = true)
    (h4 : n < 4) : stickyDirActions meanings n = List.range n := by
  have hfil : (dirNames.filter fun d => decide (d ∈ meanings)) = [] := by
    rw [List.filter_eq_nil_iff]
    intro d hd
    simpa using List.all_eq_true.mp hno d hd
  simp only [stickyDirActions, hfil, List.map_nil, List.isEmpty_nil,
    if_true, ite_true]
  have : min 4 n = n := by omega
  rw [this]

/-- C9: for either policy reset with `action_count = n` over a
vocabulary of length `n > 0` and a well-formed generator, every action
returned by any subsequent sequence of `act` calls lies in `[0, n)`;
and when no directional name is recognized and `n < 4`, the fallback
direction set is exactly the `n` existing actions, over which the cyclic
rotation stays well-defined. -/
theorem c9_action_index_in_range (mk : Int → RngModel) (seed : Int)
    (meanings : List String) (n : Nat) (pr : RandomPolicyState)
    (ps : StickyPolicyState) (k : Nat) (inputs : List (Rat × Bool))
    (hn : 0 < n) (hlen : meanings.length = n) (hwf : RngWF (mk seed)) :
    ((randomRunActions (randomReset pr mk seed meanings n) k inputs).all
      fun a => decide (a < n)) = true ∧
    ((stickyRunActions (stickyReset ps mk seed meanings n) k inputs).all
      fun a => decide (a < n)) = true ∧
    ((dirNames.all fun d => decide (¬ d ∈ meanings)) = true → n < 4 →
      stickyDirActions meanings n = List.range n) := by
  refine ⟨?_, ?_, stickyDirActions_small_fallback meanings n⟩
  · exact randomRun_all_lt n hn inputs k _ rfl hwf
  · exact stickyRun_all_lt n inputs k _
      (stickyReset_inv ps mk seed meanings n hn hlen hwf)

/-- Witness for C9: a two-action vocabulary with no directional names;
both policies' runs stay inside `[0, 2)` and the fallback direction set
is `[0, 1]`. -/
theorem c9_action_index_in_range_witness :
    ((randomRunActions
        (randomReset { rng := { model := zeroRngModel, pos := 0 }, n := 0 }
          (fun _ => zeroRngModel) 3 ["A", "B"] 2) 0
        [(0, false), (1, true), (0, false)]).all
      fun a => decide (a < 2)) = true ∧
    ((stickyRunActions
        (stickyReset stickyFive (fun _ => zeroRngModel) 3 ["A", "B"] 2) 0
        [(0, false), (1, true), (0, false)]).all
      fun a => decide (a < 2)) = true ∧
    stickyDirActions ["A", "B"] 2 = List.range 2 := by
  have h := c9_action_index_in_range (fun _ => zeroRngModel) 3 ["A", "B"] 2
    { rng := { model := zeroRngModel, pos := 0 }, n := 0 } stickyFive 0
    [(0, false), (1, true), (0, false)] (by decide) rfl
    ⟨fun _ => ⟨le_refl 0, by norm_num [zeroRngModel]⟩, fun _ _ hq => hq⟩
  exact ⟨h.1, h.2.1, h.2.2 (by decide) (by decide)⟩

/-! ## Injectivity of the fingerprint encoding -/

theorem natDigits_ne_nil (n : Nat) : natDigits n ≠ [] := by
  rw [natDigits]
  split
  · simp
  · simp

theorem natDigits_digit (n : Nat) : ∀ c ∈ natDigits n, 48 ≤ c ∧ c ≤ 57 := by
  induction n using Nat.strong_induction_on with
  | _ n ih =>
    rw [natDigits]
    split
    · rename_i h
      intro c hc
      simp at hc
      omega
    · rename_i h
      intro c hc
      rcases List.mem_append.mp hc with h1 | h1
      · exact ih (n / 10) (Nat.div_lt_self (by omega) (by omega)) c h1
      · simp at h1
        omega

theorem digitsVal_append (l : List Nat) (d : Nat) :
    digitsVal (l ++ [d]) = digitsVal l * 10 + (d - 48) := by
  simp [digitsVal, List.foldl_append]

theorem digitsVal_natDigits (n : Nat) : digitsVal (natDigits n) = n := by
  induction n using Nat.strong_induction_on with
  | _ n ih =>
    rw [natDigits]
    split
    · rename_i h
      simp only [digitsVal, List.foldl_cons, List.foldl_nil]
      omega
    · rename_i h
      rw [digitsVal_append, ih (n / 10) (Nat.div_lt_self (by omega) (by omega))]
      omega

theorem natDigits_inj (a b : Nat) (h : natDigits a = natDigits b) : a = b := by
  have h2 := congrArg digitsVal h
  rwa [digitsVal_natDigits, digitsVal_natDigits] at h2

theorem append_marker_split {α : Type} (P : α → Prop) :
    ∀ (xs1 xs2 : List α) (c1 c2 : α) (r1 r2 : List α),
      xs1 ++ c1 :: r1 = xs2 ++ c2 :: r2 →
      (∀ c ∈ xs1, P c) → (∀ c ∈ xs2, P c) → ¬ P c1 → ¬ P c2 →
      xs1 = xs2 ∧ c1 = c2 ∧ r1 = r2
  | [], [], c1, c2, r1, r2, h, _, _, _, _ => by
    simp at h
    exact ⟨rfl, h.1, h.2⟩
  | [], b :: t, c1, c2, r1, r2, h, _, h2, hc1, _ => by
    simp at h
    exact absurd (h.1 ▸ h2 b (by simp)) hc1
  | a :: t1, [], c1, c2, r1, r2, h, h1, _, _, hc2 => by
    simp at h
    exact absurd (h.1 ▸ h1 a (by simp)) hc2
  | a :: t1, b :: t2, c1, c2, r1, r2, h, h1, h2, hc1, hc2 => by
    simp only [List.cons_append, List.cons.injEq] at h
    obtain ⟨hab, ht⟩ := h
    obtain ⟨hx, hc, hr⟩ := append_marker_split P t1 t2 c1 c2 r1 r2 ht
      (fun c hc => h1 c (by simp [hc])) (fun c hc => h2 c (by simp [hc]))
      hc1 hc2
    exact ⟨by rw [hab, hx], hc, hr⟩

def tupleTail (l : List Nat) : List Nat :=
  joinComma (l.map natDigits) ++ [41]

theorem tupleTail_nil : tupleTail [] = [41] := rfl

theorem tupleTail_single (x : Nat) : tupleTail [x] = natDigits x ++ [41] := rfl

theorem tupleTail_cons₂ (x y : Nat) (t : List Nat) :
    tupleTail (x :: y :: t) = natDigits x ++ 44 :: 32 :: tupleTail (y :: t) := by
  simp [tupleTail, joinComma, List.append_assoc]

def isDigitB (c : Nat) : Prop := 48 ≤ c ∧ c ≤ 57

theorem tupleTail_length_pos (l : List Nat) : 0 < (tupleTail l).length := by
  simp [tupleTail]

theorem tupleTail_inj :
    ∀ (l1 l2 : List Nat), l1 ≠ [] → l2 ≠ [] →
      tupleTail l1 = tupleTail l2 → l1 = l2
  | [], _, hne, _, _ => absurd rfl hne
  | _ :: _, [], _, hne, _ => absurd rfl hne
  | [x], [y], _, _, h => by
    rw [tupleTail_single, tupleTail_single] at h
    obtain ⟨hh, _, _⟩ := append_marker_split isDigitB (natDigits x)
      (natDigits y) 41 41 [] [] h (natDigits_digit x) (natDigits_digit y)
      (by intro hp; exact absurd hp.1 (by norm_num))
      (by intro hp; exact absurd hp.1 (by norm_num))
    rw [natDigits_inj x y hh]
  | [x], y :: z :: u, _, _, h => by
    rw [tupleTail_single, tupleTail_cons₂] at h
    obtain ⟨_, hc, _⟩ := append_marker_split isDigitB (natDigits x)
      (natDigits y) 41 44 [] (32 :: tupleTail (z :: u)) h
      (natDigits_digit x) (natDigits_digit y)
      (by intro hp; exact absurd hp.1 (by norm_num))
      (by intro hp; exact absurd hp.1 (by norm_num))
    exact absurd hc (by norm_num)
  | x :: y :: t, [z], _, _, h => by
    rw [tupleTail_single, tupleTail_cons₂] at h
    obtain ⟨_, hc, _⟩ := append_marker_split isDigitB (natDigits x)
      (natDigits z) 44 41 (32 :: tupleTail (y :: t)) [] h
      (natDigits_digit x) (natDigits_digit z)
      (by intro hp; exact absurd hp.1 (by norm_num))
      (by intro hp; exact absurd hp.1 (by norm_num))
    exact absurd hc (by norm_num)
  | x :: y :: t, z :: w :: u, _, _, h => by
    rw [tupleTail_cons₂, tupleTail_cons₂] at h
    obtain ⟨hh, _, hr⟩ := append_marker_split isDigitB (natDigits x)
      (natDigits z) 44 44 (32 :: tupleTail (y :: t))
      (32 :: tupleTail (w :: u)) h
      (natDigits_digit x) (natDigits_digit z)
      (by intro hp; exact absurd hp.1 (by norm_num))
      (by intro hp; exact absurd hp.1 (by norm_num))
    have ht := tupleTail_inj (y :: t) (w :: u) (by simp) (by simp)
      (by simpa using hr)
    rw [natDigits_inj x z hh, ht]

theorem pyTupleRepr_nil : pyTupleRepr [] = 40 :: tupleTail [] := rfl

theorem pyTupleRepr_single (a : Nat) :
    pyTupleRepr [a] = 40 :: (natDigits a ++ [44, 41]) := by
  simp [pyTupleRepr, joinComma]

theorem pyTupleRepr_big (a b : Nat) (t : List Nat) :
    pyTupleRepr (a :: b :: t) = 40 :: tupleTail (a :: b :: t) := by
  simp only [pyTupleRepr, tupleTail]
  rw [if_neg (by simp)]

theorem pyTupleRepr_inj :
    ∀ (s1 s2 : List Nat), pyTupleRepr s1 = pyTupleRepr s2 → s1 = s2
  | [], [], _ => rfl
  | [], [a], h => by
    rw [pyTupleRepr_nil, pyTupleRepr_single, tupleTail_nil] at h
    have hl := congrArg List.length h
    have hpos := List.length_pos.mpr (natDigits_ne_nil a)
    simp only [List.length_cons, List.length_append, List.length_nil] at hl
    omega
  | [a], [], h => by
    rw [pyTupleRepr_nil, pyTupleRepr_single, tupleTail_nil] at h
    have hl := congrArg List.length h
    have hpos := List.length_pos.mpr (natDigits_ne_nil a)
    simp only [List.length_cons, List.length_append, List.length_nil] at hl
    omega
  | [], a :: b :: t, h => by
    rw [pyTupleRepr_nil, pyTupleRepr_big, tupleTail_nil, tupleTail_cons₂] at h
    have hl := congrArg List.length h
    have hpos := List.length_pos.mpr (natDigits_ne_nil a)
    have hpos2 := tupleTail_length_pos (b :: t)
    simp only [List.length_cons, List.length_append, List.length_nil] at hl
    omega
  | a :: b :: t, [], h => by
    rw [pyTupleRepr_nil, pyTupleRepr_big, tupleTail_nil, tupleTail_cons₂] at h
    have hl := congrArg List.length h
    have hpos := List.length_pos.mpr (natDigits_ne_nil a)
    have hpos2 := tupleTail_length_pos (b :: t)
    simp only [List.length_cons, List.length_append, List.length_nil] at hl
    omega
  | [a], [b], h => by
    rw [pyTupleRepr_single, pyTupleRepr_single] at h
    have h2 : natDigits a ++ 44 :: [41] = natDigits b ++ 44 :: [41] := by
      simpa using h
    obtain ⟨hh, _, _⟩ := append_marker_split isDigitB (natDigits a)
      (natDigits b) 44 44 [41] [41] h2 (natDigits_digit a)
      (natDigits_digit b)
      (by intro hp; exact absurd hp.1 (by norm_num))
      (by intro hp; exact absurd hp.1 (by norm_num))
    rw [natDigits_inj a b hh]
  | [a], b :: c :: t, h => by
    rw [pyTupleRepr_single, pyTupleRepr_big, tupleTail_cons₂] at h
    have h2 : natDigits a ++ 44 :: [41]
        = natDigits b ++ 44 :: (32 :: tupleTail (c :: t)) := by
      simpa using h
    obtain ⟨_, _, hr⟩ := append_marker_split isDigitB (natDigits a)
      (natDigits b) 44 44 [41] (32 :: tupleTail (c :: t)) h2
      (natDigits_digit a) (natDigits_digit b)
      (by intro hp; exact absurd hp.1 (by norm_num))
      (by intro hp; exact absurd hp.1 (by norm_num))
    simp at hr
  | a :: b :: t, [c], h => by
    rw [pyTupleRepr_single, pyTupleRepr_big, tupleTail_cons₂] at h
    have h2 : natDigits a ++ 44 :: (32 :: tupleTail (b :: t))
        = natDigits c ++ 44 :: [41] := by
      simpa using h
    obtain ⟨_, _, hr⟩ := append_marker_split isDigitB (natDigits a)
      (natDigits c) 44 44 (32 :: tupleTail (b :: t)) [41] h2
      (natDigits_digit a) (natDigits_digit c)
      (by intro hp; exact absurd hp.1 (by norm_num))
      (by intro hp; exact absurd hp.1 (by norm_num))
    simp at hr
  | a :: b :: t, c :: d :: u, h => by
    rw [pyTupleRepr_big, pyTupleRepr_big] at h
    exact tupleTail_inj (a :: b :: t) (c :: d :: u) (by simp) (by simp)
      (by simpa using h)

theorem escBytes_nil (q : Nat) : escBytes q [] = [] := rfl

theorem escBytes_cons (q c : Nat) (t : List Nat) :
    escBytes q (c :: t) = escByte q c ++ escBytes q t := rfl

theorem escByte_ne_nil (q c : Nat) : escByte q c ≠ [] := by
  unfold escByte
  split_ifs <;> simp

theorem hexDigit_inj (a b : Nat) (ha : a < 16) (hb : b < 16)
    (h : hexDigit a = hexDigit b) : a = b := by
  unfold hexDigit at h
  split_ifs at h <;> omega

set_option maxHeartbeats 2000000 in
theorem escByte_code (q c1 c2 : Nat) (r1 r2 : List Nat)
    (hq : q = 39 ∨ q = 34) (h1 : c1 < 256) (h2 : c2 < 256)
    (h : escByte q c1 ++ r1 = escByte q c2 ++ r2) : c1 = c2 ∧ r1 = r2 := by
  unfold escByte at h
  split_ifs at h <;>
    simp only [List.cons_append, List.nil_append, List.cons.injEq,
      true_and] at h
  all_goals try
    (obtain ⟨hx, hy, hr⟩ := h
     have e1 := hexDigit_inj _ _ (by omega) (by omega) hx
     have e2 := hexDigit_inj _ _ (by omega) (by omega) hy
     exact ⟨by omega, hr⟩)
  all_goals first
    | exact ⟨by omega, h⟩
    | exact ⟨by omega, h.2⟩
    | (exfalso; omega)

theorem escBytes_inj (q : Nat) (hq : q = 39 ∨ q = 34) :
    ∀ (b1 b2 : List Nat), (∀ c ∈ b1, c < 256) → (∀ c ∈ b2, c < 256) →
      escBytes q b1 = escBytes q b2 → b1 = b2
  | [], [], _, _, _ => rfl
  | [], c :: t, _, _, h => by
    rw [escBytes_nil, escBytes_cons] at h
    exact absurd (List.append_eq_nil.mp h.symm).1 (escByte_ne_nil q c)
  | c :: t, [], _, _, h => by
    rw [escBytes_nil, escBytes_cons] at h
    exact absurd (List.append_eq_nil.mp h).1 (escByte_ne_nil q c)
  | c1 :: t1, c2 :: t2, hv1, hv2, h => by
    rw [escBytes_cons, escBytes_cons] at h
    obtain ⟨hc, hr⟩ := escByte_code q c1 c2 _ _ hq (hv1 c1 (by simp))
      (hv2 c2 (by simp)) h
    rw [hc, escBytes_inj q hq t1 t2 (fun c hcm => hv1 c (by simp [hcm]))
      (fun c hcm => hv2 c (by simp [hcm])) hr]

theorem bytesQuote_cases (bs : List Nat) :
    bytesQuote bs = 39 ∨ bytesQuote bs = 34 := by
  unfold bytesQuote
  split
  · exact Or.inr rfl
  · exact Or.inl rfl

theorem pyBytesRepr_inj (b1 b2 : List Nat) (hv1 : ∀ c ∈ b1, c < 256)
    (hv2 : ∀ c ∈ b2, c < 256) (h : pyBytesRepr b1 = pyBytesRepr b2) :
    b1 = b2 := by
  simp only [pyBytesRepr, List.cons.injEq, true_and] at h
  obtain ⟨hq, h2⟩ := h
  rw [hq] at h2
  exact escBytes_inj (bytesQuote b2) (bytesQuote_cases b2) b1 b2 hv1 hv2
    (List.append_cancel_right h2)

theorem tupleTail_mem :
    ∀ (l : List Nat), ∀ c ∈ tupleTail l,
      isDigitB c ∨ c = 41 ∨ c = 44 ∨ c = 32
  | [], c, hc => by
    rw [tupleTail_nil] at hc
    simp at hc
    omega
  | [x], c, hc => by
    rw [tupleTail_single] at hc
    rcases List.mem_append.mp hc with h1 | h1
    · exact Or.inl (natDigits_digit x c h1)
    · simp at h1
      omega
  | x :: y :: t, c, hc => by
    rw [tupleTail_cons₂] at hc
    rcases List.mem_append.mp hc with h1 | h1
    · exact Or.inl (natDigits_digit x c h1)
    · rcases List.mem_cons.mp h1 with h2 | h2
      · omega
      · rcases List.mem_cons.mp h2 with h3 | h3
        · omega
        · exact tupleTail_mem (y :: t) c h3

theorem pyTupleRepr_mem :
    ∀ (s : List Nat), ∀ c ∈ pyTupleRepr s,
      isDigitB c ∨ c = 40 ∨ c = 41 ∨ c = 44 ∨ c = 32
  | [], c, hc => by
    rw [pyTupleRepr_nil, tupleTail_nil] at hc
    simp at hc
    omega
  | [a], c, hc => by
    rw [pyTupleRepr_single] at hc
    rcases List.mem_cons.mp hc with h1 | h1
    · omega
    · rcases List.mem_append.mp h1 with h2 | h2
      · exact Or.inl (natDigits_digit a c h2)
      · simp at h2
        omega
  | a :: b :: t, c, hc => by
    rw [pyTupleRepr_big] at hc
    rcases List.mem_cons.mp hc with h1 | h1
    · omega
    · rcases tupleTail_mem (a :: b :: t) c h1 with h2 | h2
      · exact Or.inl h2
      · omega

theorem pyTupleRepr_no_quote (s : List Nat) :
    ∀ c ∈ pyTupleRepr s, ¬ (c = 39 ∨ c = 34) := by
  intro c hc
  rcases pyTupleRepr_mem s c hc with h | h
  · obtain ⟨h1, h2⟩ := h
    omega
  · omega

theorem pyDataEncoding_inj (s1 s2 b1 b2 : List Nat)
    (hv1 : ∀ c ∈ b1, c < 256) (hv2 : ∀ c ∈ b2, c < 256)
    (h : pyDataEncoding s1 b1 = pyDataEncoding s2 b2) :
    s1 = s2 ∧ b1 = b2 := by
  have hres : ∀ (s b : List Nat),
      pyDataEncoding s b = 40 :: ((pyTupleRepr s ++ [44, 32, 98]) ++
        (bytesQuote b) ::
          (escBytes (bytesQuote b) b ++ [bytesQuote b, 41])) := by
    intro s b
    simp [pyDataEncoding, pyBytesRepr, List.append_assoc]
  rw [hres, hres] at h
  simp only [List.cons.injEq, true_and] at h
  have hside : ∀ (s : List Nat) (b : List Nat),
      ∀ c ∈ pyTupleRepr s ++ [44, 32, 98], ¬ (c = 39 ∨ c = 34) := by
    intro s b c hc
    rcases List.mem_append.mp hc with h1 | h1
    · exact pyTupleRepr_no_quote s c h1
    · simp at h1
      omega
  obtain ⟨hxs, hqeq, hrest⟩ := append_marker_split
    (fun c => ¬ (c = 39 ∨ c = 34)) _ _ _ _ _ _ h
    (hside s1 b1) (hside s2 b2)
    (fun hP => hP (bytesQuote_cases b1))
    (fun hP => hP (bytesQuote_cases b2))
  constructor
  · exact pyTupleRepr_inj s1 s2 (List.append_cancel_right hxs)
  · rw [hqeq] at hrest
    exact escBytes_inj (bytesQuote b2) (bytesQuote_cases b2) b1 b2 hv1 hv2
      (List.append_cancel_right hrest)

def unaryHash (l : List Nat) : String :=
  String.mk (List.replicate (Encodable.encode l) 'a')

theorem unaryHash_injective : Function.Injective unaryHash := by
  intro x y hxy
  have hd : List.replicate (Encodable.encode x) 'a'
      = List.replicate (Encodable.encode y) 'a' := congrArg String.data hxy
  have hl := congrArg List.length hd
  simp only [List.length_replicate] at hl
  exact Encodable.encode_injective hl

/-- C4: the pre-hash encoding of `obs_hash` is a function of exactly the
observation's shape and contiguous bytes and conflates no two distinct
`(shape, bytes)` pairs; hence, with SHA-256 modelled as an arbitrary
injective digest, equal fingerprints force equal shapes and equal bytes,
and in particular identical byte content under different declared shapes
produces different digests. -/
theorem c4_fingerprint_encoding_injective (sha : List Nat → String)
    (hsha : Function.Injective sha) (s1 s2 b1 b2 : List Nat)
    (hv1 : ∀ c ∈ b1, c < 256) (hv2 : ∀ c ∈ b2, c < 256) :
    (pyDataEncoding s1 b1 = pyDataEncoding s2 b2 → s1 = s2 ∧ b1 = b2) ∧
    (obsHashM sha s1 b1 = obsHashM sha s2 b2 → s1 = s2 ∧ b1 = b2) ∧
    (s1 ≠ s2 → obsHashM sha s1 b1 ≠ obsHashM sha s2 b2) := by
  refine ⟨pyDataEncoding_inj s1 s2 b1 b2 hv1 hv2, ?_, ?_⟩
  · intro h
    exact pyDataEncoding_inj s1 s2 b1 b2 hv1 hv2 (hsha h)
  · intro hne h
    exact hne (pyDataEncoding_inj s1 s2 b1 b2 hv1 hv2 (hsha h)).1

/-- Witness for C4 at shapes `(2, 3)` versus `(6,)` over the same two
content bytes, with a concrete injective digest function. -/
theorem c4_fingerprint_encoding_injective_witness :
    (pyDataEncoding [2, 3] [0, 200] = pyDataEncoding [6] [0, 200] →
      [2, 3] = [6] ∧ [0, 200] = [0, 200]) ∧
    (obsHashM unaryHash [2, 3] [0, 200] = obsHashM unaryHash [6] [0, 200] →
      [2, 3] = [6] ∧ [0, 200] = [0, 200]) ∧
    (([2, 3] : List Nat) ≠ [6] →
      obsHashM unaryHash [2, 3] [0, 200] ≠ obsHashM unaryHash [6] [0, 200]) :=
  c4_fingerprint_encoding_injective unaryHash unaryHash_injective
    [2, 3] [6] [0, 200] [0, 200] (by decide) (by decide)

/-! ## Replay reproduces multi-episode recordings exactly

The single-episode divergence above is the only one: when the
`single_episode` flag is off, the recorder never takes its break path,
and the replayer's unconditional reseed-on-done coincides with the
recorder's, so replaying a recorded action list reproduces the cumulative
reward and the final fingerprint exactly, and the verdict is exit code
0. -/

/-- The simulation relation between a recorder state and a replayer
state: same observation, episode seed, in-episode action history and
cumulative reward, with the replayer's running hash current for that
observation. -/
def agreeStates {Obs σ : Type} (hashFn : Obs → String)
    (st : RecorderState Obs σ) (rp : ReplayerState Obs) : Prop :=
  rp.obs = st.obs ∧ rp.epSeed = st.epSeed ∧ rp.histActs = st.histActs ∧
  rp.totalReward = st.totalReward ∧ rp.lastHash = hashFn st.obs

/-- Without the single-episode flag the recorder loop never breaks. -/
theorem recordIter_cont {Obs σ : Type} (E : EnvModel Obs)
    (actFn : σ → Nat → Obs → Rat → Bool → σ × Nat) (S : Int) (step : Nat)
    (st : RecorderState Obs σ) :
    (recordIter E actFn S false step st).2 = true := by
  simp only [recordIter]
  split
  · rw [if_neg (by simp : ¬ (false = true))]
  · rfl

/-- The action appended by one recorder iteration. -/
theorem recordIter_actions {Obs σ : Type} (E : EnvModel Obs)
    (actFn : σ → Nat → Obs → Rat → Bool → σ × Nat) (S : Int)
    (singleEp : Bool) (step : Nat) (st : RecorderState Obs σ) :
    (recordIter E actFn S singleEp step st).1.actions
      = st.actions ++ [(actFn st.polS step st.obs st.lastReward st.lastDone).2] := by
  simp only [recordIter]
  split
  · split <;> rfl
  · rfl

/-- One replayed step over the recorded action matches one recorded
step. -/
theorem replayIter_sim {Obs σ : Type} (hashFn : Obs → String)
    (E : EnvModel Obs) (actFn : σ → Nat → Obs → Rat → Bool → σ × Nat)
    (S : Int) (step : Nat) (st : RecorderState Obs σ)
    (rp : ReplayerState Obs) (h : agreeStates hashFn st rp) :
    agreeStates hashFn (recordIter E actFn S false step st).1
      (replayIter hashFn E S step
        ((actFn st.polS step st.obs st.lastReward st.lastDone).2) rp) := by
  obtain ⟨ho, hs, hh, ht, hl⟩ := h
  dsimp only [recordIter, replayIter]
  rw [hs, hh, ht]
  split
  · rw [if_neg (by simp : ¬ (false = true))]
    exact ⟨rfl, rfl, rfl, rfl, rfl⟩
  · exact ⟨rfl, rfl, rfl, rfl, rfl⟩

/-- The recorder loop only ever appends to the action list. -/
theorem recordSteps_actions_extend {Obs σ : Type} (E : EnvModel Obs)
    (actFn : σ → Nat → Obs → Rat → Bool → σ × Nat) (S : Int)
    (singleEp : Bool) :
    ∀ (rem step : Nat) (st : RecorderState Obs σ),
      ∃ d, (recordSteps E actFn S singleEp rem step st).actions
        = st.actions ++ d
  | 0, _, st => ⟨[], by simp [recordSteps]⟩
  | Nat.succ rem, step, st => by
    rw [recordSteps]
    split
    · obtain ⟨d, hd⟩ := recordSteps_actions_extend E actFn S singleEp rem
        (step + 1) (recordIter E actFn S singleEp step st).1
      refine ⟨(actFn st.polS step st.obs st.lastReward st.lastDone).2 :: d, ?_⟩
      rw [hd, recordIter_actions]
      simp
    · exact ⟨[(actFn st.polS step st.obs st.lastReward st.lastDone).2],
        recordIter_actions E actFn S singleEp step st⟩

/-- The simulation, driven over the whole loop: replaying exactly the
actions the recorder appends from any aligned midpoint lands the
replayer in a state matching the recorder's final state. -/
theorem replaySteps_sim {Obs σ : Type} (hashFn : Obs → String)
    (E : EnvModel Obs) (actFn : σ → Nat → Obs → Rat → Bool → σ × Nat)
    (S : Int) :
    ∀ (rem step : Nat) (st : RecorderState Obs σ) (rp : ReplayerState Obs),
      agreeStates hashFn st rp →
      agreeStates hashFn (recordSteps E actFn S false rem step st)
        (replaySteps hashFn E S step
          ((recordSteps E actFn S false rem step st).actions.drop
            st.actions.length) rp)
  | 0, step, st, rp, h => by
    simpa [recordSteps, replaySteps, List.drop_length] using h
  | Nat.succ rem, step, st, rp, h => by
    have hcont := recordIter_cont E actFn S step st
    have hstep : recordSteps E actFn S false (Nat.succ rem) step st
        = recordSteps E actFn S false rem (step + 1)
          (recordIter E actFn S false step st).1 := by
      rw [recordSteps, if_pos hcont]
    obtain ⟨d, hd⟩ := recordSteps_actions_extend E actFn S false rem
      (step + 1) (recordIter E actFn S false step st).1
    have hact := recordIter_actions E actFn S false step st
    have hdrop1 : (recordSteps E actFn S false (Nat.succ rem) step st).actions.drop
        st.actions.length
        = (actFn st.polS step st.obs st.lastReward st.lastDone).2 :: d := by
      rw [hstep, hd, hact, List.append_assoc]
      exact List.drop_left st.actions
        ((actFn st.polS step st.obs st.lastReward st.lastDone).2 :: d)
    have hdrop2 : d = (recordSteps E actFn S false rem (step + 1)
        (recordIter E actFn S false step st).1).actions.drop
        (recordIter E actFn S false step st).1.actions.length := by
      rw [hd]
      exact (List.drop_left _ d).symm
    rw [hdrop1, hstep, replaySteps, hdrop2]
    exact replaySteps_sim hashFn E actFn S rem (step + 1) _ _
      (replayIter_sim hashFn E actFn S step st rp h)

/-- Replaying a multi-episode artifact reproduces its cumulative reward
and final fingerprint exactly, and the verdict exits 0. -/
theorem replay_reproduces_multi_episode {Obs σ : Type}
    (hashFn : Obs → String) (E : EnvModel Obs)
    (actFn : σ → Nat → Obs → Rat → Bool → σ × Nat) (S : Int) (steps : Nat)
    (p0 : σ) :
    (replayRun hashFn E S
        (recordArtifact hashFn E actFn S steps false p0).actions).totalReward
      = (recordArtifact hashFn E actFn S steps false p0).totalReward ∧
    (replayRun hashFn E S
        (recordArtifact hashFn E actFn S steps false p0).actions).lastHash
      = (recordArtifact hashFn E actFn S steps false p0).finalObsHash ∧
    (replayVerdict (recordArtifact hashFn E actFn S steps false p0).totalReward
      (recordArtifact hashFn E actFn S steps false p0).finalObsHash
      (replayRun hashFn E S
        (recordArtifact hashFn E actFn S steps false p0).actions)).exitCode
      = 0 := by
  have hsim := replaySteps_sim hashFn E actFn S steps 0 (recordInit E S p0)
    (replayInit hashFn E S) ⟨rfl, rfl, rfl, rfl, rfl⟩
  have hdrop : ((recordSteps E actFn S false steps 0
      (recordInit E S p0)).actions.drop
      (recordInit E S p0).actions.length)
      = (recordArtifact hashFn E actFn S steps false p0).actions := by
    simp [recordInit, recordArtifact, recordRun]
  rw [hdrop] at hsim
  obtain ⟨_, _, _, ht, hl⟩ := hsim
  have h1 : (replayRun hashFn E S
      (recordArtifact hashFn E actFn S steps false p0).actions).totalReward
      = (recordArtifact hashFn E actFn S steps false p0).totalReward := ht
  have h2 : (replayRun hashFn E S
      (recordArtifact hashFn E actFn S steps false p0).actions).lastHash
      = (recordArtifact hashFn E actFn S steps false p0).finalObsHash := hl
  refine ⟨h1, h2, ?_⟩
  simp only [replayVerdict, h1, h2]
  rw [if_pos]
  rw [Bool.and_eq_true]
  constructor
  · rw [decide_eq_true_iff]
    rw [sub_self, abs_zero]
    norm_num [rewardTol]
  · exact beq_self_eq_true _

end GpuRl
